import Mathlib

/-
Verification of the skv embedded key-value store (a B-tree over 8 KiB slotted
pages, a buffer manager with LRU eviction and a dirty list, and a physical
write-ahead log with CRC-sealed transaction batches).

The development shallowly embeds the Rust sources:
  * src/pagedata.rs   — byte-exact model of the slotted page (PageBytes below);
    a page is modelled as a total function from byte offset to byte value, and
    every operation (insert_item, remove_key, split, ...) is translated
    statement by statement, with Rust's copy_within / copy_from_slice modelled
    as the corresponding piecewise byte functions.
  * src/buffer_manager.rs — the pool bookkeeping state (hash table, LRU list,
    free list, dirty list) as a record over index-valued links; the unbounded
    while-loops of the source walk linked lists, so they are modelled with an
    explicit fuel argument and the theorems assume the list is realized by an
    acyclic chain (which is what the source relies on as well).
  * src/store.rs      — rollback and WAL recovery over an explicit store state
    (metadata, buffer manager, pool, data file, log file); the CRC32C function
    comes from an external crate, so it is taken as a parameter.
  * src/store.rs B-tree layer — find / insert / remove / do_upsert / do_remove
    acting on the logical page store (page id → page bytes, plus the cached
    Metadata fields).  This is the transaction-local view: get_page(pid)
    yields page pid and dirty-marking is buffer bookkeeping that does not
    change page contents.
-/

set_option maxHeartbeats 4000000
set_option maxRecDepth 20000

/-! ## Byte-string comparison (Rust u8-slice cmp) -/

/-- Lexicographic comparison of byte strings, as Rust's slice cmp on u8. -/
def lexCompare : List Nat → List Nat → Ordering
  | [], [] => Ordering.eq
  | [], _ :: _ => Ordering.lt
  | _ :: _, [] => Ordering.gt
  | a :: as, b :: bs =>
    if a < b then Ordering.lt else if b < a then Ordering.gt else lexCompare as bs

/-! ## Page bytes: the slotted page of src/pagedata.rs

A page is an 8 KiB byte array; we model it as a total function from byte
offset to byte value (offsets at or beyond PAGE_SIZE are never read by the
operations on well-formed pages). -/

def PAGE_SIZE : Nat := 8192
def PAGE_HEADER_SIZE : Nat := 2
def METADATA_SIZE : Nat := 16
def MAX_KEY_LEN : Nat := 255
def MAX_VALUE_LEN : Nat := PAGE_SIZE / 4

abbrev PageBytes := Nat → Nat

/-- The all-zero page (page.data.fill(0), and freshly created PageData). -/
def zeroPage : PageBytes := fun _ => 0

/-- Write a single byte (truncated to u8, as Rust array stores do). -/
def writeByte (p : PageBytes) (o v : Nat) : PageBytes :=
  fun i => if i = o then v % 256 else p i

/-- Write a byte slice at offset o (copy_from_slice from a fresh buffer). -/
def writeBytes (p : PageBytes) (o : Nat) (bs : List Nat) : PageBytes :=
  fun i => if o ≤ i ∧ i < o + bs.length then bs.getD (i - o) 0 % 256 else p i

/-- Rust slice::copy_within src..srcEnd → dst on one array: the source range
is read as of the state before the copy (memmove semantics). -/
def copy_within (p : PageBytes) (src srcEnd dst : Nat) : PageBytes :=
  fun i => if dst ≤ i ∧ i < dst + (srcEnd - src) then p (src + (i - dst)) else p i

/-- Copy the byte range a..b of page q into page p (copy_from_slice between
two pages, used by split). -/
def copyRange (p q : PageBytes) (a b : Nat) : PageBytes :=
  fun i => if a ≤ i ∧ i < b then q i else p i

/-- Read len bytes starting at offset o. -/
def readBytes (p : PageBytes) (o len : Nat) : List Nat :=
  (List.range len).map (fun j => p (o + j))

def get_u16 (p : PageBytes) (o : Nat) : Nat := p o * 256 + p (o + 1)

def get_u32 (p : PageBytes) (o : Nat) : Nat :=
  ((p o * 256 + p (o + 1)) * 256 + p (o + 2)) * 256 + p (o + 3)

def set_u16 (p : PageBytes) (o v : Nat) : PageBytes :=
  fun i => if i = o then v / 256 % 256 else if i = o + 1 then v % 256 else p i

def set_u32 (p : PageBytes) (o v : Nat) : PageBytes :=
  fun i =>
    if i = o then v / 16777216 % 256
    else if i = o + 1 then v / 65536 % 256
    else if i = o + 2 then v / 256 % 256
    else if i = o + 3 then v % 256
    else p i

/-- Big-endian u32 byte encoding (PageId::to_be_bytes). -/
def u32Bytes (v : Nat) : List Nat :=
  [v / 16777216 % 256, v / 65536 % 256, v / 256 % 256, v % 256]

def get_offs (p : PageBytes) (ip : Nat) : Nat :=
  get_u16 p (PAGE_HEADER_SIZE + ip * 2)

def set_offs (p : PageBytes) (ip offs : Nat) : PageBytes :=
  set_u16 p (PAGE_HEADER_SIZE + ip * 2) offs

def get_child (p : PageBytes) (ip : Nat) : Nat :=
  let offs := get_offs p ip
  let key_len := p offs
  get_u32 p (offs + key_len + 1)

def get_key (p : PageBytes) (ip : Nat) : List Nat :=
  let offs := get_offs p ip
  let key_len := p offs
  readBytes p (offs + 1) key_len

def get_n_items (p : PageBytes) : Nat := get_u16 p 0

def get_last_key (p : PageBytes) : List Nat :=
  get_key p (get_n_items p - 1)

def get_item_offs_len (p : PageBytes) (ip : Nat) : Nat × Nat :=
  let offs := get_offs p ip
  let next_offs := if ip = 0 then PAGE_SIZE else get_offs p (ip - 1)
  (offs, next_offs - offs)

def get_item (p : PageBytes) (ip : Nat) : List Nat × List Nat :=
  let ol := get_item_offs_len p ip
  let key_len := p ol.1
  (readBytes p (ol.1 + 1) key_len,
   readBytes p (ol.1 + 1 + key_len) (ol.2 - 1 - key_len))

def get_size (p : PageBytes) : Nat :=
  let n_items := get_n_items p
  if n_items = 0 then 0 else PAGE_SIZE - get_offs p (n_items - 1)

def set_n_items (p : PageBytes) (n_items : Nat) : PageBytes :=
  set_u16 p 0 n_items

/-- compare_key of pagedata.rs: compares the probe key with the key stored in
slot ip; a stored key of length 0 is the +infinity sentinel and compares
greater than every probe key (so the result is lt). -/
def compare_key (p : PageBytes) (ip : Nat) (key : List Nat) : Ordering :=
  let offs := get_offs p ip
  let key_len := p offs
  if key_len = 0 then Ordering.lt
  else lexCompare key (readBytes p (offs + 1) key_len)

/-- remove_key of pagedata.rs, byte for byte.  The branch for removing the
last slot of an internal page copies prev_key_len + 1 bytes from the removed
item to new_offs. -/
def remove_key (p : PageBytes) (ip : Nat) (leaf : Bool) : PageBytes :=
  let n_items := get_n_items p
  let size := get_size p
  let ol := get_item_offs_len p ip
  let item_offs := ol.1
  let item_len := ol.2
  let p := (List.range' (ip + 1) (n_items - (ip + 1))).foldl
      (fun q i => set_offs q (i - 1) (get_offs q i + item_len)) p
  let items_origin := PAGE_SIZE - size
  let p :=
    if ¬leaf ∧ n_items > 1 ∧ ip + 1 = n_items then
      let prev_item_offs := item_offs + item_len
      let key_len := p item_offs
      let prev_key_len := p prev_item_offs
      let new_offs := prev_item_offs + prev_key_len - key_len
      let p := set_offs p (ip - 1) new_offs
      copy_within p item_offs (item_offs + prev_key_len + 1) new_offs
    else
      copy_within p items_origin item_offs (items_origin + item_len)
  set_n_items p (n_items - 1)

/-- insert_item of pagedata.rs.  Returns the new page and true when the item
fits, and the unchanged page and false otherwise. -/
def insert_item (p : PageBytes) (ip : Nat) (key value : List Nat) :
    PageBytes × Bool :=
  let n_items := get_n_items p
  let size := get_size p
  let key_len := key.length
  let item_len := 1 + key_len + value.length
  if (n_items + 1) * 2 + size + item_len ≤ PAGE_SIZE - PAGE_HEADER_SIZE then
    let p := ((List.range' ip (n_items - ip)).reverse).foldl
        (fun q i => set_offs q (i + 1) (get_offs q i - item_len)) p
    let item_offs := if ip ≠ 0 then get_offs p (ip - 1) - item_len
      else PAGE_SIZE - item_len
    let p := set_offs p ip item_offs
    let items_origin := PAGE_SIZE - size
    let p := copy_within p items_origin (item_offs + item_len)
        (items_origin - item_len)
    let p := writeByte p item_offs key_len
    let p := writeBytes p (item_offs + 1) key
    let p := writeBytes p (item_offs + 1 + key_len) value
    (set_n_items p (n_items + 1), true)
  else
    (p, false)

/-- Generic binary search shared by find / insert / remove / split in the
sources: while l < r, probe m = (l+r)/2 and move l to m+1 when gt m holds,
else move r to m; the final value of r is returned. -/
def lowBoundFuel (gt : Nat → Bool) : Nat → Nat → Nat → Nat
  | 0, _, r => r
  | fuel + 1, l, r =>
    if l < r then
      let m := (l + r) / 2
      if gt m then lowBoundFuel gt fuel (m + 1) r else lowBoundFuel gt fuel l m
    else r

def lowBound (gt : Nat → Bool) (l r : Nat) : Nat :=
  lowBoundFuel gt (r - l) l r

/-- split of pagedata.rs: distributes the items of p between p and newp and
returns the two resulting pages together with the split position r (items
0..r move to the new page). -/
def split (p newp : PageBytes) (ip : Nat) : PageBytes × PageBytes × Nat :=
  let n_items := get_n_items p
  let size := get_size p
  let r :=
    if ip = n_items then n_items - 1
    else
      let margin := PAGE_SIZE - size / 2
      lowBound (fun m => decide (get_offs p m > margin)) 0 n_items
  let moved_size := PAGE_SIZE - get_offs p r
  let newp := copyRange newp p PAGE_HEADER_SIZE (PAGE_HEADER_SIZE + (r + 1) * 2)
  let dst := PAGE_SIZE - moved_size
  let newp := copyRange newp p dst PAGE_SIZE
  let p := (List.range' (r + 1) (n_items - (r + 1))).foldl
      (fun q i => set_offs q (i - r - 1) (get_offs q i + moved_size)) p
  let src := PAGE_SIZE - size
  let p := copy_within p src dst (src + moved_size)
  let newp := set_n_items newp (r + 1)
  let p := set_n_items p (n_items - r - 1)
  (p, newp, r)

/-! ## C4: remove_key on the last slot of an internal page

The spec says the removed slot's key is promoted to the preceding slot while
that slot keeps its own child pointer.  The code copies prev_key_len + 1
bytes (instead of key_len + 1, the removed key and its length byte), which
overwrites a prefix of the preceding slot's child pointer with bytes of the
removed slot's child.  Concrete internal page: slot 0 = key "abc" → child 5,
slot 1 = sentinel → child 263.  After remove_key(1, false) the promoted slot
has the sentinel key but child 261 (bytes 0,0,1,5 — a mix of 263's and 5's
encodings) instead of the original child 5. -/

def c4Page : PageBytes :=
  (insert_item (insert_item zeroPage 0 [97, 98, 99] (u32Bytes 5)).1
    1 [] (u32Bytes 263)).1

/-- C4: on the internal page with slots [("abc" → child 5), (+inf → child 263)],
removing the last slot promotes the sentinel key but corrupts the preceding
slot's child pointer: it becomes 261 rather than the claimed unchanged 5.
This refutes the claim that the preceding slot keeps its previous child. -/
theorem C4_remove_key_corrupts_promoted_child :
    get_child c4Page 0 = 5 ∧ get_child c4Page 1 = 263 ∧
    get_key c4Page 0 = [97, 98, 99] ∧ get_key c4Page 1 = [] ∧
    get_n_items (remove_key c4Page 1 false) = 1 ∧
    get_key (remove_key c4Page 1 false) 0 = [] ∧
    get_child (remove_key c4Page 1 false) 0 = 261 ∧ (261 : Nat) ≠ 5 := by
  refine ⟨by decide, by decide, by decide, by decide, by decide, by decide, by decide, by decide⟩

/-! ## Buffer manager: src/buffer_manager.rs

The pool is a contiguous array of Buffer entries addressed by BufferId, with
index-valued links (0 is the reserved none sentinel).  We model the pages
array and the hash table as total functions from index to entry.  The
unbounded while loops of the source walk linked lists; they are modelled
with an explicit fuel argument, and the theorems assume the walked list is
realized by a finite chain, which is exactly what the source itself relies
on for termination. -/

def PAGE_RAW : Nat := 1
def PAGE_BUSY : Nat := 2
def PAGE_DIRTY : Nat := 4
def PAGE_WAIT : Nat := 8
def PAGE_SYNCED : Nat := 16

structure Buffer where
  pid : Nat
  collision : Nat
  next : Nat
  prev : Nat
  access_count : Nat
  state : Nat
deriving DecidableEq

def Buffer.new : Buffer :=
  { pid := 0, collision := 0, next := 0, prev := 0, access_count := 0, state := 0 }

structure BufferManager where
  head : Nat
  tail : Nat
  free_pages : Nat
  dirty_pages : Nat
  next_sync : Nat
  used : Nat
  pinned : Nat
  dirtied : Nat
  cached : Nat
  capacity : Nat
  hash_table : Nat → Nat
  pages : Nat → Buffer

/-- Update a single pool entry. -/
def updPage (bm : BufferManager) (id : Nat) (f : Buffer → Buffer) :
    BufferManager :=
  { bm with pages := fun i => if i = id then f (bm.pages i) else bm.pages i }

/-- unpin: link the buffer at the head of the LRU list. -/
def BufferManager.unpin (bm : BufferManager) (id : Nat) : BufferManager :=
  let oldHead := bm.head
  let bm := updPage bm id
    (fun b => { b with access_count := 0, next := oldHead, prev := 0 })
  let bm := { bm with pinned := bm.pinned - 1 }
  let bm :=
    if oldHead ≠ 0 then updPage bm oldHead (fun b => { b with prev := id })
    else { bm with tail := id }
  { bm with head := id }

/-- pin: unlink the buffer from the LRU list. -/
def BufferManager.pin (bm : BufferManager) (id : Nat) : BufferManager :=
  let next := (bm.pages id).next
  let prev := (bm.pages id).prev
  let bm :=
    if prev = 0 then { bm with head := next }
    else updPage bm prev (fun b => { b with next := next })
  let bm :=
    if next = 0 then { bm with tail := prev }
    else updPage bm next (fun b => { b with prev := prev })
  { bm with pinned := bm.pinned + 1 }

/-- insert into the hash-bucket chain (at the head). -/
def BufferManager.hashInsert (bm : BufferManager) (id : Nat) : BufferManager :=
  let h := (bm.pages id).pid % bm.capacity
  let oldChain := bm.hash_table h
  let bm := updPage bm id (fun b => { b with collision := oldChain })
  { bm with hash_table := fun i => if i = h then id else bm.hash_table i }

/-- The collision-chain walk inside remove: advance p until pages[p].collision
is the id to delete, then link past it.  Fuel bounds the walk. -/
def hashRemoveLoop (bm : BufferManager) (id : Nat) : Nat → Nat → BufferManager
  | _, 0 => bm
  | p, fuel + 1 =>
    if (bm.pages p).collision = id then
      updPage bm p (fun b => { b with collision := (bm.pages id).collision })
    else hashRemoveLoop bm id (bm.pages p).collision fuel

/-- remove from the hash-bucket chain. -/
def BufferManager.hashRemove (bm : BufferManager) (id : Nat) : BufferManager :=
  let h := (bm.pages id).pid % bm.capacity
  let pstart := bm.hash_table h
  if pstart = id then
    { bm with hash_table :=
        fun i => if i = h then (bm.pages id).collision else bm.hash_table i }
  else hashRemoveLoop bm id pstart (bm.capacity + 1)

/-- throw_buffer: hash remove, push onto the free list, decrement cached. -/
def BufferManager.throw_buffer (bm : BufferManager) (id : Nat) : BufferManager :=
  let bm := bm.hashRemove id
  let bm := updPage bm id (fun b => { b with next := bm.free_pages })
  { bm with free_pages := id, cached := bm.cached - 1 }

/-- The dirty-list walk of modify_buffer: from sync, follow prev links until
an entry with access_count = 1 is found (returning it and its pid), or the
chain ends at 0. -/
def syncWalk (bm : BufferManager) : Nat → Nat → Option (Nat × Nat)
  | _, 0 => none
  | sync, fuel + 1 =>
    if sync = 0 then none
    else if (bm.pages sync).access_count = 1 then
      some (sync, (bm.pages sync).pid)
    else syncWalk bm (bm.pages sync).prev fuel

/-- The common tail of modify_buffer: link id at the head of the dirty list;
if next_sync is 0 it becomes id. -/
def linkDirtyHead (bm : BufferManager) (id : Nat) : BufferManager :=
  let bm :=
    if bm.dirty_pages ≠ 0 then
      updPage bm bm.dirty_pages (fun b => { b with prev := id })
    else bm
  let bm := if bm.next_sync = 0 then { bm with next_sync := id } else bm
  let oldDirty := bm.dirty_pages
  let bm := updPage bm id (fun b => { b with next := oldDirty, prev := 0 })
  { bm with dirty_pages := id }

/-- The first two statements of the clean branch of modify_buffer: pin the
buffer a second time, mark it DIRTY, and count it in dirtied. -/
def dirtyMark (bm : BufferManager) (id : Nat) : BufferManager :=
  let bm := updPage bm id
    (fun b => { b with access_count := b.access_count + 1, state := PAGE_DIRTY })
  { bm with dirtied := bm.dirtied + 1 }

/-- modify_buffer of buffer_manager.rs. -/
def BufferManager.modify_buffer (bm : BufferManager) (id : Nat)
    (wal_flush_threshold : Nat) : BufferManager × Option (Nat × Nat) :=
  if (bm.pages id).state &&& PAGE_DIRTY = 0 then
    let bm := dirtyMark bm id
    let res :=
      if bm.dirtied > wal_flush_threshold then
        syncWalk bm bm.next_sync (bm.capacity + 1)
      else none
    let bm :=
      match res with
      | some sp =>
        let bm := updPage bm sp.1 (fun b => { b with state := b.state ||| PAGE_SYNCED })
        { bm with next_sync := (bm.pages sp.1).prev }
      | none => bm
    (linkDirtyHead bm id, res)
  else
    let bm := updPage bm id (fun b => { b with state := b.state &&& 65519 })
    let prev := (bm.pages id).prev
    if prev = 0 then (bm, none)
    else
      let bm := if bm.next_sync = id then { bm with next_sync := prev } else bm
      let next := (bm.pages id).next
      let bm := updPage bm prev (fun b => { b with next := next })
      let bm := if next ≠ 0 then updPage bm next (fun b => { b with prev := prev }) else bm
      (linkDirtyHead bm id, none)

/-- release_buffer of buffer_manager.rs. -/
def BufferManager.release_buffer (bm : BufferManager) (id : Nat) : BufferManager :=
  if (bm.pages id).access_count = 1 then bm.unpin id
  else updPage bm id (fun b => { b with access_count := b.access_count - 1 })

/-- The hash-bucket lookup loop of get_buffer. -/
def chainFind (bm : BufferManager) (pid : Nat) : Nat → Nat → Option Nat
  | _, 0 => none
  | h, fuel + 1 =>
    if h = 0 then none
    else if (bm.pages h).pid = pid then some h
    else chainFind bm pid (bm.pages h).collision fuel

/-- get_buffer of buffer_manager.rs.  The error is CacheExhausted. -/
def BufferManager.get_buffer (bm : BufferManager) (pid : Nat) :
    Except Unit (BufferManager × Nat) :=
  let hash := pid % bm.capacity
  match chainFind bm pid (bm.hash_table hash) (bm.capacity + 1) with
  | some h =>
    let access_count := (bm.pages h).access_count
    let bm := if access_count = 0 then bm.pin h else bm
    Except.ok (updPage bm h (fun b => { b with access_count := access_count + 1 }), h)
  | none =>
    let h := bm.free_pages
    if h ≠ 0 then
      let bm := { bm with free_pages := (bm.pages h).next,
                          cached := bm.cached + 1, pinned := bm.pinned + 1 }
      let bm := updPage bm h
        (fun b => { b with access_count := 1, pid := pid, state := PAGE_RAW })
      Except.ok (bm.hashInsert h, h)
    else
      let h := bm.used
      if h < bm.capacity then
        let bm := { bm with used := bm.used + 1,
                            cached := bm.cached + 1, pinned := bm.pinned + 1 }
        let bm := updPage bm h
          (fun b => { b with access_count := 1, pid := pid, state := PAGE_RAW })
        Except.ok (bm.hashInsert h, h)
      else
        let victim := bm.tail
        if victim = 0 then Except.error ()
        else
          let bm := bm.pin victim
          let bm := bm.hashRemove victim
          let bm := updPage bm victim
            (fun b => { b with access_count := 1, pid := pid, state := PAGE_RAW })
          Except.ok (bm.hashInsert victim, victim)

/-! ## Linked-list chains

The source walks singly- and doubly-linked lists threaded through the pool by
index-valued next / prev / collision fields.  NChain says that starting from
a given index and repeatedly applying the step function visits exactly the
elements of a list before reaching the 0 sentinel; IsDLL additionally records
the back links of a doubly-linked list (par is the prev value expected at the
first element). -/

inductive NChain (step : Nat → Nat) : Nat → List Nat → Prop
  | nil : NChain step 0 []
  | cons (h : Nat) (t : List Nat) : h ≠ 0 → NChain step (step h) t →
      NChain step h (h :: t)

inductive IsDLL (next prev : Nat → Nat) : Nat → Nat → List Nat → Prop
  | nil (par : Nat) : IsDLL next prev 0 par []
  | cons (h par : Nat) (t : List Nat) : h ≠ 0 → prev h = par →
      IsDLL next prev (next h) h t → IsDLL next prev h par (h :: t)

theorem NChain.mem_nz {step : Nat → Nat} {s : Nat} {L : List Nat}
    (hc : NChain step s L) : ∀ x ∈ L, x ≠ 0 := by
  induction hc with
  | nil => intro x hx; cases hx
  | cons h t hne _ ih =>
    intro x hx
    rcases List.mem_cons.mp hx with rfl | hx
    · exact hne
    · exact ih x hx

theorem IsDLL.ne_zero {next prev : Nat → Nat} {s par : Nat} {L : List Nat}
    (hd : IsDLL next prev s par L) : ∀ x ∈ L, x ≠ 0 := by
  induction hd with
  | nil par => intro x hx; cases hx
  | cons h par t hne hp _ ih =>
    intro x hx
    rcases List.mem_cons.mp hx with rfl | hx
    · exact hne
    · exact ih x hx

theorem IsDLL.nil_inv {next prev : Nat → Nat} {s par : Nat}
    (hd : IsDLL next prev s par []) : s = 0 := by
  cases hd; rfl

theorem IsDLL.cons_inv {next prev : Nat → Nat} {s par b : Nat} {t : List Nat}
    (hd : IsDLL next prev s par (b :: t)) : s = b := by
  cases hd; rfl

theorem IsDLL.congr {n1 p1 n2 p2 : Nat → Nat} {s par : Nat} {L : List Nat}
    (hd : IsDLL n1 p1 s par L) (hn : ∀ i ∈ L, n2 i = n1 i)
    (hp : ∀ i ∈ L, p2 i = p1 i) : IsDLL n2 p2 s par L := by
  induction hd with
  | nil par => exact IsDLL.nil par
  | cons h par t hne hpr _ ih =>
    refine IsDLL.cons h par t hne ?_ ?_
    · rw [hp h (List.mem_cons_self h t), hpr]
    · rw [hn h (List.mem_cons_self h t)]
      exact ih (fun i hi => hn i (List.mem_cons_of_mem h hi))
        (fun i hi => hp i (List.mem_cons_of_mem h hi))

/-- An element is the chain head with prev link equal to the parent, or its
prev link is again a chain element. -/
theorem IsDLL.prev_mem {next prev : Nat → Nat} {s par : Nat} {L : List Nat}
    (hd : IsDLL next prev s par L) :
    ∀ x ∈ L, (x = s ∧ prev x = par) ∨ (x ≠ s ∧ prev x ∈ L) := by
  induction hd with
  | nil par => intro x hx; cases hx
  | cons h par t hne hp ht ih =>
    intro x hx
    by_cases hxh : x = h
    · exact Or.inl ⟨hxh, by rw [hxh]; exact hp⟩
    · rcases List.mem_cons.mp hx with rfl | hxt
      · exact absurd rfl hxh
      · rcases ih x hxt with ⟨_, hpx⟩ | ⟨_, hpx⟩
        · exact Or.inr ⟨hxh, by rw [hpx]; exact List.mem_cons_self h t⟩
        · exact Or.inr ⟨hxh, List.mem_cons_of_mem h hpx⟩

/-- The successor of a chain element is 0 or again a chain element. -/
theorem IsDLL.next_mem {next prev : Nat → Nat} {s par : Nat} {L : List Nat}
    (hd : IsDLL next prev s par L) :
    ∀ x ∈ L, next x = 0 ∨ next x ∈ L := by
  induction hd with
  | nil par => intro x hx; cases hx
  | cons h par t hne hp ht ih =>
    intro x hx
    rcases List.mem_cons.mp hx with rfl | hxt
    · cases t with
      | nil => exact Or.inl ht.nil_inv
      | cons b t' => exact Or.inr (by rw [ht.cons_inv]; exact List.mem_cons_of_mem _ (List.mem_cons_self b t'))
    · rcases ih x hxt with h0 | hmem
      · exact Or.inl h0
      · exact Or.inr (List.mem_cons_of_mem _ hmem)

theorem IsDLL.zero_inv {next prev : Nat → Nat} {par : Nat} {L : List Nat}
    (hd : IsDLL next prev 0 par L) : L = [] := by
  cases hd with
  | nil => rfl
  | cons h par t hne => exact absurd rfl hne

theorem List.getLastD_of_ne_nil {α : Type} {l : List α} (h : l ≠ []) (a b : α) :
    l.getLastD a = l.getLastD b := by
  cases l with
  | nil => exact absurd rfl h
  | cons x xs =>
    rw [List.getLastD_eq_getLast?, List.getLastD_eq_getLast?]
    simp [List.getLast?_cons]

/-- Pointwise function rewiring: the value at index a (when a is not the 0
sentinel) becomes v. -/
def rewire (f : Nat → Nat) (a v : Nat) : Nat → Nat :=
  fun i => if a ≠ 0 ∧ i = a then v else f i

theorem rewire_at {f : Nat → Nat} {a v : Nat} (ha : a ≠ 0) :
    rewire f a v a = v := by
  simp [rewire, ha]

theorem rewire_ne {f : Nat → Nat} {a v i : Nat} (h : ¬(a ≠ 0 ∧ i = a)) :
    rewire f a v i = f i := by
  simp only [rewire, if_neg h]

/-- Unlinking one element of a doubly-linked chain: the rewired next and prev
functions realize the chain with the element erased, and the last element is
unchanged unless the erased element was last (in which case its prev link
becomes the last). -/
theorem dll_erase_aux (next prev : Nat → Nat) (x : Nat) :
    ∀ (s par : Nat) (L : List Nat), IsDLL next prev s par L → L.Nodup →
    par ∉ L → x ∈ L →
    IsDLL (rewire next (prev x) (next x)) (rewire prev (next x) (prev x))
      (if x = s then next x else s) par (L.erase x) ∧
    (L.erase x).getLastD par =
      (if next x = 0 then prev x else L.getLastD par) := by
  intro s par L hd
  induction hd with
  | nil par => intro _ _ hx; cases hx
  | cons h par t hne hp ht ih =>
    intro hnd hpar hx
    have hht : h ∉ t := (List.nodup_cons.mp hnd).1
    have htnd : t.Nodup := (List.nodup_cons.mp hnd).2
    by_cases hxh : x = h
    · subst hxh
      rw [List.erase_cons_head, if_pos rfl]
      constructor
      · cases t with
        | nil =>
          rw [ht.nil_inv]
          exact IsDLL.nil par
        | cons b t' =>
          have hnb : next x = b := ht.cons_inv
          have hb0 : b ≠ 0 := ht.ne_zero b (hnb ▸ List.mem_cons_self b t')
          rw [hnb]
          refine IsDLL.cons b par t' hb0 ?_ ?_
          · rw [rewire_at hb0, hp]
          · have hbp : b ≠ prev x := by
              rw [hp]
              intro he
              exact hpar (he ▸ List.mem_cons_of_mem x (List.mem_cons_self b t'))
            rw [rewire_ne (fun hc => hbp hc.2)]
            have hinner : IsDLL next prev (next b) b t' := by
              have h2 := ht
              rw [hnb] at h2
              cases h2 with
              | cons _ _ _ _ _ hq => exact hq
            refine hinner.congr ?_ ?_
            · intro i hi
              refine rewire_ne (fun hc => ?_)
              rw [hp] at hc
              exact hpar (hc.2 ▸ List.mem_cons_of_mem x (List.mem_cons_of_mem b hi))
            · intro i hi
              refine rewire_ne (fun hc => ?_)
              exact (List.nodup_cons.mp htnd).1 (hc.2 ▸ hi)
      · by_cases hn0 : next x = 0
        · have ht' : t = [] := by
            have h2 := ht
            rw [hn0] at h2
            exact h2.zero_inv
          rw [ht', hn0, if_pos rfl]
          simpa [List.getLastD] using hp.symm
        · have htne : t ≠ [] := by
            intro he
            rw [he] at ht
            exact hn0 ht.nil_inv
          rw [if_neg hn0, List.getLastD_cons]
          exact List.getLastD_of_ne_nil htne par x
    · have hxt : x ∈ t := by
        rcases List.mem_cons.mp hx with he | hm
        · exact absurd he hxh
        · exact hm
      rw [List.erase_cons_tail (by simp [Ne.symm hxh])]
      have hih := ih htnd hht hxt
      rw [if_neg hxh]
      have hnxh : h ≠ next x := by
        rcases ht.next_mem x hxt with h0 | hmem
        · rw [h0]; exact hne
        · intro he; exact hht (he ▸ hmem)
      constructor
      · refine IsDLL.cons h par (t.erase x) hne ?_ ?_
        · rw [rewire_ne (fun hc => hnxh hc.2), hp]
        · rcases ht.prev_mem x hxt with ⟨hxs, hpx⟩ | ⟨hxs, hpx⟩
          · have : rewire next (prev x) (next x) h = next x := by
              rw [hpx]; exact rewire_at hne
            rw [this]
            have := hih.1
            rw [if_pos hxs] at this
            exact this
          · have hhp : h ≠ prev x := by
              intro he; exact hht (he ▸ hpx)
            rw [rewire_ne (fun hc => hhp hc.2)]
            have := hih.1
            rw [if_neg hxs] at this
            exact this
      · rw [List.getLastD_cons, List.getLastD_cons, hih.2]

theorem pin_pages (bm : BufferManager) (x i : Nat) :
    ((bm.pin x).pages i).next =
      rewire (fun j => (bm.pages j).next) ((bm.pages x).prev) ((bm.pages x).next) i ∧
    ((bm.pin x).pages i).prev =
      rewire (fun j => (bm.pages j).prev) ((bm.pages x).next) ((bm.pages x).prev) i ∧
    ((bm.pin x).pages i).access_count = (bm.pages i).access_count ∧
    ((bm.pin x).pages i).pid = (bm.pages i).pid ∧
    ((bm.pin x).pages i).state = (bm.pages i).state ∧
    ((bm.pin x).pages i).collision = (bm.pages i).collision := by
  simp only [BufferManager.pin, updPage, rewire]
  split_ifs <;> simp_all

theorem pin_head (bm : BufferManager) (x : Nat) :
    (bm.pin x).head =
      (if (bm.pages x).prev = 0 then (bm.pages x).next else bm.head) := by
  simp only [BufferManager.pin, updPage]
  split_ifs <;> simp_all

theorem pin_tail (bm : BufferManager) (x : Nat) :
    (bm.pin x).tail =
      (if (bm.pages x).next = 0 then (bm.pages x).prev else bm.tail) := by
  simp only [BufferManager.pin, updPage]
  split_ifs <;> simp_all

theorem pin_pinned (bm : BufferManager) (x : Nat) :
    (bm.pin x).pinned = bm.pinned + 1 := by
  simp only [BufferManager.pin, updPage]
  split_ifs <;> simp_all

/-- The LRU list: the head / tail fields and the next / prev links of the
pool realize the list L (head first, tail last). -/
def LruOk (bm : BufferManager) (L : List Nat) : Prop :=
  IsDLL (fun i => (bm.pages i).next) (fun i => (bm.pages i).prev) bm.head 0 L ∧
  bm.tail = L.getLastD 0

/-- pin unlinks a buffer from the LRU list. -/
theorem pin_lru (bm : BufferManager) (x : Nat) (L : List Nat)
    (hL : LruOk bm L) (hnd : L.Nodup) (hx : x ∈ L) :
    LruOk (bm.pin x) (L.erase x) := by
  obtain ⟨hd, htl⟩ := hL
  have h0 : (0 : Nat) ∉ L := fun h => hd.ne_zero 0 h rfl
  have haux := dll_erase_aux _ _ x bm.head 0 L hd hnd h0 hx
  constructor
  · have hdll := haux.1
    have heq : (if x = bm.head then (bm.pages x).next else bm.head) = (bm.pin x).head := by
      rw [pin_head]
      rcases hd.prev_mem x hx with ⟨he, hpz⟩ | ⟨hne, hpm⟩
      · rw [if_pos he, if_pos hpz]
      · rw [if_neg hne, if_neg (hd.ne_zero _ hpm)]
    rw [heq] at hdll
    exact hdll.congr (fun i _ => (pin_pages bm x i).1)
      (fun i _ => (pin_pages bm x i).2.1)
  · rw [pin_tail, htl, haux.2]

/-- The hash-bucket lookup walk returns the first chain element caching pid,
provided the chain is realized by a finite list shorter than the fuel. -/
theorem chainFind_eq (bm : BufferManager) (pid : Nat) {s : Nat} {C : List Nat}
    (hc : NChain (fun i => (bm.pages i).collision) s C) :
    ∀ fuel, C.length < fuel →
      chainFind bm pid s fuel = C.find? (fun h => (bm.pages h).pid == pid) := by
  induction hc with
  | nil =>
    intro fuel hf
    cases fuel with
    | zero => omega
    | succ f => simp [chainFind]
  | cons h t hne hch ih =>
    intro fuel hf
    cases fuel with
    | zero => simp at hf
    | succ f =>
      simp only [chainFind, if_neg hne, List.find?]
      by_cases hp : (bm.pages h).pid = pid
      · simp [hp]
      · have : ((bm.pages h).pid == pid) = false := by simp [hp]
        simp only [this, if_neg hp]
        exact ih f (by simpa using hf)

/-- Reachability along prev links, skipping entries whose access_count is not
1, as the dirty-list walk of modify_buffer does. -/
inductive PrevReach (bm : BufferManager) : Nat → Nat → Prop
  | here (s : Nat) : s ≠ 0 → (bm.pages s).access_count = 1 → PrevReach bm s s
  | step (s b : Nat) : s ≠ 0 → (bm.pages s).access_count ≠ 1 →
      PrevReach bm (bm.pages s).prev b → PrevReach bm s b

theorem syncWalk_spec (bm : BufferManager) :
    ∀ fuel s b p, syncWalk bm s fuel = some (b, p) →
      PrevReach bm s b ∧ (bm.pages b).access_count = 1 ∧ p = (bm.pages b).pid := by
  intro fuel
  induction fuel with
  | zero => intro s b p h; simp [syncWalk] at h
  | succ f ih =>
    intro s b p h
    by_cases hs : s = 0
    · simp [syncWalk, hs] at h
    · by_cases ha : (bm.pages s).access_count = 1
      · simp only [syncWalk, if_neg hs, if_pos ha, Option.some.injEq, Prod.mk.injEq] at h
        obtain ⟨rfl, rfl⟩ := h
        exact ⟨PrevReach.here s hs ha, ha, rfl⟩
      · simp only [syncWalk, if_neg hs, if_neg ha] at h
        obtain ⟨hr, h1, h2⟩ := ih _ b p h
        exact ⟨PrevReach.step s b hs ha hr, h1, h2⟩

theorem hashRemoveLoop_misc (bm : BufferManager) (id : Nat) :
    ∀ fuel p, (hashRemoveLoop bm id p fuel).pinned = bm.pinned ∧
      (hashRemoveLoop bm id p fuel).cached = bm.cached ∧
      (hashRemoveLoop bm id p fuel).used = bm.used ∧
      (hashRemoveLoop bm id p fuel).free_pages = bm.free_pages ∧
      (hashRemoveLoop bm id p fuel).capacity = bm.capacity ∧
      (hashRemoveLoop bm id p fuel).head = bm.head ∧
      (hashRemoveLoop bm id p fuel).tail = bm.tail ∧
      (∀ i, ((hashRemoveLoop bm id p fuel).pages i).access_count = (bm.pages i).access_count ∧
        ((hashRemoveLoop bm id p fuel).pages i).pid = (bm.pages i).pid ∧
        ((hashRemoveLoop bm id p fuel).pages i).state = (bm.pages i).state ∧
        ((hashRemoveLoop bm id p fuel).pages i).next = (bm.pages i).next ∧
        ((hashRemoveLoop bm id p fuel).pages i).prev = (bm.pages i).prev) := by
  intro fuel
  induction fuel with
  | zero => intro p; simp [hashRemoveLoop]
  | succ f ih =>
    intro p
    by_cases hc : (bm.pages p).collision = id
    · simp [hashRemoveLoop, hc, updPage]
      intro i
      split_ifs <;> simp
    · simp only [hashRemoveLoop, if_neg hc]
      exact ih _

theorem hashRemove_misc (bm : BufferManager) (id : Nat) :
    (bm.hashRemove id).pinned = bm.pinned ∧
    (bm.hashRemove id).cached = bm.cached ∧
    (bm.hashRemove id).used = bm.used ∧
    (bm.hashRemove id).free_pages = bm.free_pages ∧
    (bm.hashRemove id).capacity = bm.capacity ∧
    (bm.hashRemove id).head = bm.head ∧
    (bm.hashRemove id).tail = bm.tail ∧
    (∀ i, ((bm.hashRemove id).pages i).access_count = (bm.pages i).access_count ∧
      ((bm.hashRemove id).pages i).pid = (bm.pages i).pid ∧
      ((bm.hashRemove id).pages i).state = (bm.pages i).state ∧
      ((bm.hashRemove id).pages i).next = (bm.pages i).next ∧
      ((bm.hashRemove id).pages i).prev = (bm.pages i).prev) := by
  simp only [BufferManager.hashRemove]
  split_ifs
  · simp
  · exact hashRemoveLoop_misc bm id _ _

theorem pin_misc (bm : BufferManager) (x : Nat) :
    (bm.pin x).cached = bm.cached ∧ (bm.pin x).used = bm.used ∧
    (bm.pin x).free_pages = bm.free_pages ∧ (bm.pin x).capacity = bm.capacity ∧
    (bm.pin x).hash_table = bm.hash_table := by
  simp only [BufferManager.pin, updPage]
  split_ifs <;> simp

theorem hashInsert_misc (bm : BufferManager) (id : Nat) :
    (bm.hashInsert id).pinned = bm.pinned ∧
    (bm.hashInsert id).cached = bm.cached ∧
    (bm.hashInsert id).used = bm.used ∧
    (bm.hashInsert id).free_pages = bm.free_pages ∧
    (bm.hashInsert id).capacity = bm.capacity ∧
    (∀ i, ((bm.hashInsert id).pages i).access_count = (bm.pages i).access_count ∧
      ((bm.hashInsert id).pages i).pid = (bm.pages i).pid ∧
      ((bm.hashInsert id).pages i).state = (bm.pages i).state) ∧
    (bm.hashInsert id).hash_table ((bm.pages id).pid % bm.capacity) = id := by
  refine ⟨?_, ?_, ?_, ?_, ?_, ?_, ?_⟩ <;>
    simp only [BufferManager.hashInsert, updPage] <;>
    first
      | rfl
      | (intro i; split_ifs <;> simp)
      | simp

/-- C6: get_buffer on a cached pid returns the existing BufferId with
access_count incremented, unlinking it from the LRU list and incrementing
pinned when access_count was 0; on a miss it claims a slot from the free
list first, else grows used while used < capacity, else evicts the LRU
tail; it errors exactly when a miss finds the free list empty, used at
capacity and tail = 0; and the claimed slot is initialized with state = RAW,
access_count = 1, pid = pid and inserted into the hash bucket. -/
theorem C6_get_buffer_spec (bm : BufferManager) (pid : Nat) (C : List Nat)
    (hC : NChain (fun i => (bm.pages i).collision)
      (bm.hash_table (pid % bm.capacity)) C)
    (hlen : C.length ≤ bm.capacity) :
    (bm.get_buffer pid = Except.error () ↔
      C.find? (fun h => (bm.pages h).pid == pid) = none ∧ bm.free_pages = 0 ∧
        ¬bm.used < bm.capacity ∧ bm.tail = 0) ∧
    (∀ h, C.find? (fun h' => (bm.pages h').pid == pid) = some h →
      ∃ bm', bm.get_buffer pid = Except.ok (bm', h) ∧
        (bm'.pages h).access_count = (bm.pages h).access_count + 1 ∧
        ((bm.pages h).access_count = 0 → bm'.pinned = bm.pinned + 1 ∧
          ∀ L, LruOk bm L → L.Nodup → h ∈ L → LruOk bm' (L.erase h)) ∧
        ((bm.pages h).access_count ≠ 0 → bm'.pinned = bm.pinned)) ∧
    (C.find? (fun h' => (bm.pages h').pid == pid) = none →
      ∀ bm' h, bm.get_buffer pid = Except.ok (bm', h) →
        h = (if bm.free_pages ≠ 0 then bm.free_pages
             else if bm.used < bm.capacity then bm.used else bm.tail) ∧
        (bm.free_pages ≠ 0 → bm'.free_pages = (bm.pages bm.free_pages).next ∧
          bm'.used = bm.used ∧ bm'.cached = bm.cached + 1 ∧
          bm'.pinned = bm.pinned + 1) ∧
        (bm.free_pages = 0 → bm.used < bm.capacity →
          bm'.used = bm.used + 1 ∧ bm'.cached = bm.cached + 1 ∧
          bm'.pinned = bm.pinned + 1) ∧
        (bm.free_pages = 0 → ¬bm.used < bm.capacity →
          h = bm.tail ∧ bm'.pinned = bm.pinned + 1 ∧ bm'.cached = bm.cached) ∧
        (bm'.pages h).state = PAGE_RAW ∧
        (bm'.pages h).access_count = 1 ∧
        (bm'.pages h).pid = pid ∧
        bm'.hash_table (pid % bm.capacity) = h) := by
  have hcf : chainFind bm pid (bm.hash_table (pid % bm.capacity))
      (bm.capacity + 1) = C.find? (fun h => (bm.pages h).pid == pid) :=
    chainFind_eq bm pid hC (bm.capacity + 1) (by omega)
  refine ⟨?_, ?_, ?_⟩
  · -- error characterization
    simp only [BufferManager.get_buffer, hcf]
    cases hfind : C.find? (fun h => (bm.pages h).pid == pid) with
    | some h => simp
    | none =>
      simp only []
      by_cases hfree : bm.free_pages ≠ 0
      · simp [hfree]
      · simp only [if_neg hfree]
        push_neg at hfree
        by_cases hused : bm.used < bm.capacity
        · simp [hused, hfree]
        · simp only [if_neg hused]
          by_cases htail : bm.tail = 0
          · simp [htail, hfree, hused]
          · simp [htail, hfree, hused]
  · -- hit
    intro h hfind
    refine ⟨updPage (if (bm.pages h).access_count = 0 then bm.pin h else bm) h
      (fun b => { b with access_count := (bm.pages h).access_count + 1 }), ?_, ?_, ?_, ?_⟩
    · simp only [BufferManager.get_buffer, hcf, hfind]
    · simp [updPage]
    · intro h0
      constructor
      · simp only [if_pos h0, updPage]
        exact pin_pinned bm h
      · intro L hLru hnd hmem
        have hpl := pin_lru bm h L hLru hnd hmem
        have hnotmem : h ∉ L.erase h := fun hm =>
          ((List.Nodup.mem_erase_iff hnd).mp hm).1 rfl
        obtain ⟨hd, htl⟩ := hpl
        constructor
        · simp only [if_pos h0, updPage]
          refine hd.congr ?_ ?_ <;> intro i hi <;>
            have : i ≠ h := fun he => hnotmem (he ▸ hi) <;>
            simp [this]
        · simp only [if_pos h0, updPage]
          exact htl
    · intro h0
      simp [if_neg h0, updPage]
  · -- miss
    intro hfind bm' h hok
    simp only [BufferManager.get_buffer, hcf, hfind] at hok
    by_cases hfree : bm.free_pages ≠ 0
    · simp only [if_pos hfree] at hok
      obtain ⟨hbm', hh⟩ := by
        have := hok
        simp only [Except.ok.injEq, Prod.mk.injEq] at this
        exact this
      subst hh
      subst hbm'
      refine ⟨by simp [hfree], ?_, ?_, ?_, ?_, ?_, ?_, ?_⟩
      · intro _
        refine ⟨?_, ?_, ?_, ?_⟩ <;> simp [BufferManager.hashInsert, updPage]
      · intro hc; exact absurd hc hfree
      · intro hc; exact absurd hc hfree
      · simp [BufferManager.hashInsert, updPage]
      · simp [BufferManager.hashInsert, updPage]
      · simp [BufferManager.hashInsert, updPage]
      · simp [BufferManager.hashInsert, updPage]
    · push_neg at hfree
      simp only [hfree, if_neg (by simp : ¬(0:Nat) ≠ 0)] at hok
      by_cases hused : bm.used < bm.capacity
      · simp only [if_pos hused] at hok
        obtain ⟨hbm', hh⟩ := by
          have := hok
          simp only [Except.ok.injEq, Prod.mk.injEq] at this
          exact this
        subst hh
        subst hbm'
        refine ⟨by simp [hfree, hused], ?_, ?_, ?_, ?_, ?_, ?_, ?_⟩
        · intro hc; exact absurd hfree (by simpa using hc)
        · intro _ _
          refine ⟨?_, ?_, ?_⟩ <;> simp [BufferManager.hashInsert, updPage]
        · intro _ hc; exact absurd hused hc
        · simp [BufferManager.hashInsert, updPage]
        · simp [BufferManager.hashInsert, updPage]
        · simp [BufferManager.hashInsert, updPage]
        · simp [BufferManager.hashInsert, updPage]
      · simp only [if_neg hused] at hok
        by_cases htail : bm.tail = 0
        · simp [htail] at hok
        · simp only [if_neg htail] at hok
          obtain ⟨hbm', hh⟩ := by
            have := hok
            simp only [Except.ok.injEq, Prod.mk.injEq] at this
            exact this
          subst hh
          subst hbm'
          have hrm := hashRemove_misc (bm.pin bm.tail) bm.tail
          refine ⟨by simp [hfree, hused], ?_, ?_, ?_, ?_, ?_, ?_, ?_⟩
          · intro hc; exact absurd hfree (by simpa using hc)
          · intro _ hc; exact absurd hc hused
          · intro _ _
            refine ⟨rfl, ?_, ?_⟩
            · simp only [BufferManager.hashInsert, updPage]
              rw [hrm.1, pin_pinned]
            · simp only [BufferManager.hashInsert, updPage]
              rw [hrm.2.1, (pin_misc bm bm.tail).1]
          · simp [BufferManager.hashInsert, updPage]
          · simp [BufferManager.hashInsert, updPage]
          · simp [BufferManager.hashInsert, updPage]
          · simp only [BufferManager.hashInsert, updPage]
            have hcap : ((bm.pin bm.tail).hashRemove bm.tail).capacity = bm.capacity := by
              rw [hrm.2.2.2.2.1, (pin_misc bm bm.tail).2.2.2.1]
            simp [hcap]

/-- A small concrete pool used to exercise C6: capacity 3, buffer 1 caches
pid 5 (bucket 2) with access_count 0, buffer 2 is the single LRU entry. -/
def bmW6 : BufferManager :=
  { head := 1, tail := 1, free_pages := 0, dirty_pages := 0, next_sync := 0,
    used := 3, pinned := 1, dirtied := 0, cached := 2, capacity := 3,
    hash_table := fun i => if i = 2 then 1 else 0,
    pages := fun i =>
      if i = 1 then
        { pid := 5, collision := 0, next := 0, prev := 0, access_count := 0, state := 0 }
      else Buffer.new }

/-- Witness for C6: a concrete hit returns the cached buffer with its
access count bumped to 1. -/
theorem C6_get_buffer_witness :
    ∃ bm', bmW6.get_buffer 5 = Except.ok (bm', 1) ∧
      (bm'.pages 1).access_count = 1 := by
  have hch : NChain (fun i => (bmW6.pages i).collision)
      (bmW6.hash_table (5 % bmW6.capacity)) [1] := by
    have hstart : bmW6.hash_table (5 % bmW6.capacity) = 1 := by decide
    rw [hstart]
    refine NChain.cons 1 [] (by decide) ?_
    have hcol : (bmW6.pages 1).collision = 0 := by decide
    rw [hcol]
    exact NChain.nil
  obtain ⟨bm', hok, hcnt, _, _⟩ :=
    (C6_get_buffer_spec bmW6 5 [1] hch (by decide)).2.1 1 (by decide)
  exact ⟨bm', hok, by rw [hcnt]; decide⟩


theorem dirtyMark_misc (bm : BufferManager) (id : Nat) :
    (dirtyMark bm id).next_sync = bm.next_sync ∧
    (dirtyMark bm id).dirtied = bm.dirtied + 1 ∧
    (dirtyMark bm id).capacity = bm.capacity ∧
    (dirtyMark bm id).dirty_pages = bm.dirty_pages := by
  simp [dirtyMark, updPage]

theorem linkDirtyHead_pages (bm : BufferManager) (id i : Nat) :
    ((linkDirtyHead bm id).pages i).state = (bm.pages i).state ∧
    ((linkDirtyHead bm id).pages i).access_count = (bm.pages i).access_count ∧
    ((linkDirtyHead bm id).pages i).pid = (bm.pages i).pid := by
  simp only [linkDirtyHead, updPage]
  split_ifs <;> simp_all <;> (try split_ifs <;> simp_all)

theorem linkDirtyHead_next_sync (bm : BufferManager) (id : Nat) :
    (linkDirtyHead bm id).next_sync =
      (if bm.next_sync = 0 then id else bm.next_sync) := by
  simp only [linkDirtyHead, updPage]
  split_ifs <;> simp_all

/-- C7 (amended): modify_buffer returns Some (b, p) only when it dirties a
previously clean buffer and dirtied then exceeds wal_flush_threshold; the
returned b is reached by walking the dirty list backwards from next_sync
skipping entries whose access_count is not 1, b has access_count 1 at that
moment, its SYNCED bit is set and p is its pid; next_sync is advanced to b's
predecessor unless that predecessor is 0, in which case the relinking of the
newly dirtied buffer re-points next_sync at id.  In all other cases
modify_buffer returns None. -/
theorem C7_modify_buffer_spec (bm : BufferManager) (id thr : Nat) :
    (∀ b p, (bm.modify_buffer id thr).2 = some (b, p) →
      (bm.pages id).state &&& PAGE_DIRTY = 0 ∧
      bm.dirtied + 1 > thr ∧
      PrevReach (dirtyMark bm id) bm.next_sync b ∧
      ((dirtyMark bm id).pages b).access_count = 1 ∧
      p = ((dirtyMark bm id).pages b).pid ∧
      ((bm.modify_buffer id thr).1.pages b).state =
        ((dirtyMark bm id).pages b).state ||| PAGE_SYNCED ∧
      (bm.modify_buffer id thr).1.next_sync =
        (if ((dirtyMark bm id).pages b).prev = 0 then id
         else ((dirtyMark bm id).pages b).prev)) ∧
    ((bm.pages id).state &&& PAGE_DIRTY ≠ 0 → (bm.modify_buffer id thr).2 = none) ∧
    ((bm.pages id).state &&& PAGE_DIRTY = 0 → ¬bm.dirtied + 1 > thr →
      (bm.modify_buffer id thr).2 = none) := by
  by_cases hdirty : (bm.pages id).state &&& PAGE_DIRTY = 0
  · by_cases hthr : (dirtyMark bm id).dirtied > thr
    · cases hwalk : syncWalk (dirtyMark bm id) (dirtyMark bm id).next_sync
          ((dirtyMark bm id).capacity + 1) with
      | none =>
        have hmb : bm.modify_buffer id thr =
            (linkDirtyHead (dirtyMark bm id) id, none) := by
          simp only [BufferManager.modify_buffer, if_pos hdirty, if_pos hthr, hwalk]
        refine ⟨?_, ?_, ?_⟩
        · intro b p hr
          rw [hmb] at hr
          simp at hr
        · intro hd; exact absurd hdirty hd
        · intro _ _; rw [hmb]
      | some sp =>
        have hmb : bm.modify_buffer id thr =
            (linkDirtyHead
              { updPage (dirtyMark bm id) sp.1
                  (fun b => { b with state := b.state ||| PAGE_SYNCED }) with
                next_sync := ((updPage (dirtyMark bm id) sp.1
                  (fun b => { b with state := b.state ||| PAGE_SYNCED })).pages
                    sp.1).prev } id,
             some sp) := by
          simp only [BufferManager.modify_buffer, if_pos hdirty, if_pos hthr, hwalk]
        refine ⟨?_, ?_, ?_⟩
        · intro b p hr
          rw [hmb] at hr
          simp only [Option.some.injEq] at hr
          obtain ⟨hb, hp⟩ : sp.1 = b ∧ sp.2 = p := by
            rw [hr]
            exact ⟨rfl, rfl⟩
          subst hb
          subst hp
          obtain ⟨hreach, hcnt, hpid⟩ :=
            syncWalk_spec (dirtyMark bm id) _ _ sp.1 sp.2
              (by rw [hwalk])
          refine ⟨hdirty, ?_, ?_, hcnt, hpid, ?_, ?_⟩
          · have := (dirtyMark_misc bm id).2.1
            omega
          · rw [← (dirtyMark_misc bm id).1]
            exact hreach
          · rw [hmb]
            rw [(linkDirtyHead_pages _ id sp.1).1]
            simp [updPage]
          · rw [hmb]
            rw [linkDirtyHead_next_sync]
            simp [updPage]
        · intro hd; exact absurd hdirty hd
        · intro _ hc
          exfalso
          have := (dirtyMark_misc bm id).2.1
          omega
    · have hmb : bm.modify_buffer id thr =
          (linkDirtyHead (dirtyMark bm id) id, none) := by
        simp only [BufferManager.modify_buffer, if_pos hdirty, if_neg hthr]
      refine ⟨?_, ?_, ?_⟩
      · intro b p hr
        rw [hmb] at hr
        simp at hr
      · intro hd; exact absurd hdirty hd
      · intro _ _; rw [hmb]
  · have hnone : (bm.modify_buffer id thr).2 = none := by
      simp only [BufferManager.modify_buffer, if_neg hdirty]
      by_cases hprev : ((updPage bm id
          (fun b => { b with state := b.state &&& 65519 })).pages id).prev = 0
      · simp [hprev]
      · simp [hprev]
    refine ⟨?_, ?_, ?_⟩
    · intro b p hr
      rw [hnone] at hr
      cases hr
    · intro _; exact hnone
    · intro hd; exact absurd hd hdirty

/-- Concrete pool: buffer 1 clean and pinned once; the dirty list is the
single buffer 2 (pid 42, access_count 1, prev 0); next_sync = 2; dirtied 1;
wal_flush_threshold 1. -/
def bmC7 : BufferManager :=
  { head := 0, tail := 0, free_pages := 0, dirty_pages := 2, next_sync := 2,
    used := 3, pinned := 2, dirtied := 1, cached := 2, capacity := 4,
    hash_table := fun _ => 0,
    pages := fun i =>
      if i = 1 then
        { pid := 7, collision := 0, next := 0, prev := 0, access_count := 1, state := 0 }
      else if i = 2 then
        { pid := 42, collision := 0, next := 0, prev := 0, access_count := 1,
          state := PAGE_DIRTY }
      else Buffer.new }

/-- C7 counterexample: modify_buffer returns the flush directive (2, 42)
whose predecessor in the dirty list is 0, yet the final next_sync is 1 (the
newly dirtied buffer), not the predecessor 0 — refuting the claim that
next_sync is always advanced to the returned buffer's predecessor. -/
theorem C7_next_sync_counterexample :
    (bmC7.modify_buffer 1 1).2 = some (2, 42) ∧
    (bmC7.pages 2).prev = 0 ∧
    ((dirtyMark bmC7 1).pages 2).prev = 0 ∧
    (bmC7.modify_buffer 1 1).1.next_sync = 1 ∧ (1 : Nat) ≠ 0 := by
  refine ⟨by decide, by decide, by decide, by decide, by decide⟩

/-- Concrete pool with a two-element dirty list [3, 2] whose older entry 2
has predecessor 3: exercises the amended C7 statement. -/
def bmC7w : BufferManager :=
  { head := 0, tail := 0, free_pages := 0, dirty_pages := 3, next_sync := 2,
    used := 4, pinned := 3, dirtied := 2, cached := 3, capacity := 4,
    hash_table := fun _ => 0,
    pages := fun i =>
      if i = 1 then
        { pid := 7, collision := 0, next := 0, prev := 0, access_count := 1, state := 0 }
      else if i = 2 then
        { pid := 42, collision := 0, next := 0, prev := 3, access_count := 1,
          state := PAGE_DIRTY }
      else if i = 3 then
        { pid := 43, collision := 0, next := 2, prev := 0, access_count := 2,
          state := PAGE_DIRTY }
      else Buffer.new }

/-- Witness for C7: on the concrete pool the directive is (2, 42) and
next_sync advances to 2's predecessor 3. -/
theorem C7_modify_buffer_witness :
    (bmC7w.modify_buffer 1 2).2 = some (2, 42) ∧
    (bmC7w.modify_buffer 1 2).1.next_sync = 3 := by
  refine ⟨by decide, ?_⟩
  have h := (C7_modify_buffer_spec bmC7w 1 2).1 2 42 (by decide)
  rw [h.2.2.2.2.2.2]
  decide

theorem NChain.of_eq {f g : Nat → Nat} {s : Nat} {L : List Nat}
    (hc : NChain f s L) (h : ∀ i ∈ L, g i = f i) : NChain g s L := by
  induction hc with
  | nil => exact NChain.nil
  | cons h' t hne hch ih =>
    refine NChain.cons h' t hne ?_
    rw [h h' (List.mem_cons_self h' t)]
    exact ih (fun i hi => h i (List.mem_cons_of_mem h' hi))

theorem NChain.eq_nil {f : Nat → Nat} {par : List Nat}
    (hc : NChain f 0 par) : par = [] := by
  cases hc with
  | nil => rfl
  | cons h t hne => exact absurd rfl hne

theorem NChain.start_zero {f : Nat → Nat} {s : Nat}
    (hc : NChain f s []) : s = 0 := by
  cases hc; rfl

theorem NChain.head_eq {f : Nat → Nat} {s b : Nat} {t : List Nat}
    (hc : NChain f s (b :: t)) : s = b := by
  cases hc; rfl

/-- The collision-chain walk of remove: it finds the predecessor p of the
deleted element d and relinks it, and the relinked chain realizes the
original bucket list with d erased. -/
theorem hashRemoveLoop_spec (bm : BufferManager) (d : Nat) :
    ∀ (L : List Nat) (s fuel : Nat),
      NChain (fun i => (bm.pages i).collision) s L → L.Nodup →
      d ∈ L → s ≠ d → L.length ≤ fuel →
      ∃ p, p ∈ L ∧ p ≠ d ∧
        hashRemoveLoop bm d s fuel = updPage bm p
          (fun b => { b with collision := (bm.pages d).collision }) ∧
        NChain (fun i => ((hashRemoveLoop bm d s fuel).pages i).collision) s
          (L.erase d) := by
  intro L
  induction L with
  | nil => intro s fuel hc _ hd; cases hd
  | cons h t ih =>
    intro s fuel hc hnd hd hs hlen
    have hsh : s = h := hc.head_eq
    subst hsh
    have hch : NChain (fun i => (bm.pages i).collision) ((bm.pages s).collision) t := by
      cases hc with
      | cons _ _ _ hq => exact hq
    have hsne : s ≠ 0 := by
      cases hc with
      | cons _ _ hne _ => exact hne
    have hdt : d ∈ t := by
      rcases List.mem_cons.mp hd with he | hm
      · exact absurd he.symm hs
      · exact hm
    have hst : s ∉ t := (List.nodup_cons.mp hnd).1
    have htnd : t.Nodup := (List.nodup_cons.mp hnd).2
    cases fuel with
    | zero => simp at hlen
    | succ f =>
      by_cases hcol : (bm.pages s).collision = d
      · -- s is the predecessor
        have hd0 : d ≠ 0 := hc.mem_nz d hd
        have ht' : ∃ t', t = d :: t' := by
          have h2 := hch
          rw [hcol] at h2
          cases t with
          | nil => exact absurd h2.start_zero hd0
          | cons b t' => exact ⟨t', by rw [h2.head_eq]⟩
        obtain ⟨t', rfl⟩ := ht'
        refine ⟨s, List.mem_cons_self s _, hs, ?_, ?_⟩
        · simp [hashRemoveLoop, hcol]
        · have hres : hashRemoveLoop bm d s (f + 1) = updPage bm s
              (fun b => { b with collision := (bm.pages d).collision }) := by
            simp [hashRemoveLoop, hcol]
          rw [hres]
          have herase : (s :: d :: t').erase d = s :: t' := by
            rw [List.erase_cons_tail (by simp [hs])]
            rw [List.erase_cons_head]
          rw [herase]
          refine NChain.cons s t' hsne ?_
          have hcol' : ((updPage bm s
              (fun b => { b with collision := (bm.pages d).collision })).pages s).collision =
              (bm.pages d).collision := by
            simp [updPage]
          rw [hcol']
          have hinner : NChain (fun i => (bm.pages i).collision)
              ((bm.pages d).collision) t' := by
            have h2 := hch
            rw [hcol] at h2
            cases h2 with
            | cons _ _ _ hq => exact hq
          refine hinner.of_eq ?_
          intro i hi
          have : i ≠ s := fun he => hst (he ▸ List.mem_cons_of_mem d hi)
          simp [updPage, this]
      · -- recurse
        have hlt : t.length ≤ f := by simpa using hlen
        obtain ⟨p, hpmem, hpd, heq, hchain⟩ :=
          ih ((bm.pages s).collision) f hch htnd hdt hcol hlt
        have hres : hashRemoveLoop bm d s (f + 1) =
            hashRemoveLoop bm d ((bm.pages s).collision) f := by
          simp [hashRemoveLoop, hcol]
        refine ⟨p, List.mem_cons_of_mem s hpmem, hpd, by rw [hres, heq], ?_⟩
        rw [hres]
        rw [List.erase_cons_tail (by simp [hs])]
        refine NChain.cons s (t.erase d) hsne ?_
        have hps : p ≠ s := fun he => hst (he ▸ hpmem)
        have hcols : ((hashRemoveLoop bm d ((bm.pages s).collision) f).pages s).collision =
            (bm.pages s).collision := by
          rw [heq]
          simp [updPage, Ne.symm hps]
        rw [hcols]
        exact hchain

/-- hashRemove erases d from its bucket chain and leaves other buckets
untouched, for a hash table realized by per-bucket lists that are nodup and
pairwise disjoint. -/
theorem hashRemove_spec (bm : BufferManager) (d : Nat) (B : Nat → List Nat)
    (hch : ∀ j, NChain (fun i => (bm.pages i).collision) (bm.hash_table j) (B j))
    (hnd : ∀ j, (B j).Nodup)
    (huniq : ∀ i j j', i ∈ B j → i ∈ B j' → j = j')
    (hmem : d ∈ B ((bm.pages d).pid % bm.capacity))
    (hlen : ∀ j, (B j).length ≤ bm.capacity) :
    ∀ j, NChain (fun i => ((bm.hashRemove d).pages i).collision)
      ((bm.hashRemove d).hash_table j) ((B j).erase d) := by
  intro j
  set jd := (bm.pages d).pid % bm.capacity with hjd
  have hjderase : ∀ j', j' ≠ jd → (B j').erase d = B j' := by
    intro j' hne
    refine List.erase_of_not_mem (fun hm => hne (huniq d j' jd hm hmem))
  by_cases hhead : bm.hash_table jd = d
  · -- d is the bucket head: hash_table is repointed, pages unchanged
    have hBd : ∃ t, B jd = d :: t := by
      have h2 := hch jd
      rw [hhead] at h2
      cases hl : B jd with
      | nil => rw [hl] at hmem; cases hmem
      | cons b t =>
        rw [hl] at h2
        exact ⟨t, by rw [h2.head_eq]⟩
    obtain ⟨t, hBdt⟩ := hBd
    have hres : bm.hashRemove d = { bm with hash_table :=
        fun i => if i = jd then (bm.pages d).collision else bm.hash_table i } := by
      simp only [BufferManager.hashRemove, ← hjd, if_pos hhead]
    rw [hres]
    by_cases hj : j = jd
    · subst hj
      simp only [if_pos rfl]
      rw [hBdt, List.erase_cons_head]
      have h2 := hch jd
      rw [hhead, hBdt] at h2
      cases h2 with
      | cons _ _ _ hq => exact hq
    · simp only [if_neg hj]
      rw [hjderase j hj]
      exact hch j
  · -- walk the chain
    have hres : bm.hashRemove d =
        hashRemoveLoop bm d (bm.hash_table jd) (bm.capacity + 1) := by
      simp only [BufferManager.hashRemove, ← hjd, if_neg hhead]
    obtain ⟨p, hpmem, hpd, heq, hchain⟩ :=
      hashRemoveLoop_spec bm d (B jd) (bm.hash_table jd) (bm.capacity + 1)
        (hch jd) (hnd jd) hmem (fun he => hhead he) (by have := hlen jd; omega)
    rw [hres]
    have hht : (hashRemoveLoop bm d (bm.hash_table jd) (bm.capacity + 1)).hash_table
        = bm.hash_table := by
      rw [heq]
      simp [updPage]
    by_cases hj : j = jd
    · subst hj
      rw [hht]
      exact hchain
    · rw [hht, hjderase j hj]
      refine (hch j).of_eq ?_
      intro i hi
      have hip : i ≠ p := fun he => hj (huniq i j jd hi (he ▸ hpmem))
      rw [heq]
      simp [updPage, hip]

/-! ## Store state: metadata, data file, WAL (src/store.rs, src/meta.rs) -/

structure Metadata where
  free : Nat
  size : Nat
  root : Nat
  height : Nat
deriving DecidableEq

/-- Metadata::unpack of meta.rs: four big-endian u32 fields at offset 0. -/
def Metadata.unpack (page : PageBytes) : Metadata :=
  { free := get_u32 page 0, size := get_u32 page 4,
    root := get_u32 page 8, height := get_u32 page 12 }

/-- Metadata::pack of meta.rs. -/
def Metadata.pack (m : Metadata) : List Nat :=
  u32Bytes m.free ++ u32Bytes m.size ++ u32Bytes m.root ++ u32Bytes m.height

/-- The Database fields of store.rs that rollback and recovery manipulate. -/
structure Database where
  meta : Metadata
  meta_updated : Bool
  wal_pos : Nat
  tx_crc : Nat
  tx_size : Nat

/-- The store: Database fields, the buffer manager, the page pool, the data
file (page-granular: every write of store.rs writes whole 8 KiB pages at
pid * PAGE_SIZE) and the WAL file as a byte list. -/
structure StoreSt where
  db : Database
  bm : BufferManager
  pool : Nat → PageBytes
  file : Nat → PageBytes
  log : List Nat

/-- The dirty-list walk of rollback: throw away every buffer of the dirty
list (the next pointer is read before the buffer is thrown, as in the
source).  Fuel bounds the walk. -/
def rollbackLoop : BufferManager → Nat → Nat → BufferManager
  | bm, _, 0 => bm
  | bm, dirty, fuel + 1 =>
    if dirty = 0 then bm
    else
      let next := (bm.pages dirty).next
      rollbackLoop (bm.throw_buffer dirty) next fuel

/-- rollback of store.rs: throw away all dirty buffers, reset the dirty
bookkeeping, rewind wal_pos by tx_size, and if meta was updated re-read page
0 from the data file into pool slot 0 and re-unpack Metadata.  No write to
the data file or the WAL occurs (the source performs none). -/
def StoreSt.rollback (s : StoreSt) : StoreSt :=
  let bm := rollbackLoop s.bm s.bm.dirty_pages (s.bm.capacity + 1)
  let bm := { bm with dirty_pages := 0, dirtied := 0, next_sync := 0 }
  let db := { s.db with wal_pos := s.db.wal_pos - s.db.tx_size,
                        tx_crc := 0, tx_size := 0 }
  if s.db.meta_updated then
    { s with db := { db with meta := Metadata.unpack (s.file 0), meta_updated := false },
             bm := bm,
             pool := fun i => if i = 0 then s.file 0 else s.pool i }
  else
    { s with db := db, bm := bm }

theorem throw_buffer_pages (bm : BufferManager) (d i : Nat) :
    ((bm.throw_buffer d).pages i).next =
      (if i = d then bm.free_pages else (bm.pages i).next) ∧
    ((bm.throw_buffer d).pages i).collision = ((bm.hashRemove d).pages i).collision ∧
    ((bm.throw_buffer d).pages i).pid = (bm.pages i).pid ∧
    (bm.throw_buffer d).free_pages = d ∧
    (bm.throw_buffer d).hash_table = (bm.hashRemove d).hash_table ∧
    (bm.throw_buffer d).capacity = bm.capacity := by
  obtain ⟨hpin, hcach, husd, hfree, hcap, hhead, htail, hpg⟩ := hashRemove_misc bm d
  simp only [BufferManager.throw_buffer, updPage]
  refine ⟨?_, ?_, ?_, trivial, trivial, ?_⟩
  · by_cases hi : i = d
    · simp [hi, hfree]
    · simp [hi, (hpg i).2.2.2.1]
  · by_cases hi : i = d <;> simp [hi]
  · by_cases hi : i = d
    · simp [hi, (hpg d).2.1]
    · simp [hi, (hpg i).2.1]
  · simp [hcap]

/-- The dirty-list walk of rollback: every dirty buffer is pushed onto the
free list (the final free list is D.reverse ++ F) and removed from the hash
table (the final buckets contain no element of D); pids and capacity are
untouched. -/
theorem rollbackLoop_spec :
    ∀ (D : List Nat) (bm : BufferManager) (s fuel : Nat) (F : List Nat)
      (B : Nat → List Nat),
      NChain (fun i => (bm.pages i).next) s D → D.Nodup →
      NChain (fun i => (bm.pages i).next) bm.free_pages F →
      (∀ x ∈ D, x ∉ F) →
      (∀ j, NChain (fun i => (bm.pages i).collision) (bm.hash_table j) (B j)) →
      (∀ j, (B j).Nodup) →
      (∀ i j j', i ∈ B j → i ∈ B j' → j = j') →
      (∀ x ∈ D, x ∈ B ((bm.pages x).pid % bm.capacity)) →
      (∀ j, (B j).length ≤ bm.capacity) →
      D.length < fuel →
      NChain (fun i => ((rollbackLoop bm s fuel).pages i).next)
        (rollbackLoop bm s fuel).free_pages (D.reverse ++ F) ∧
      (∃ Bf : Nat → List Nat,
        (∀ j, NChain (fun i => ((rollbackLoop bm s fuel).pages i).collision)
          ((rollbackLoop bm s fuel).hash_table j) (Bf j)) ∧
        (∀ j i, i ∈ Bf j → i ∈ B j ∧ i ∉ D)) ∧
      (∀ i, ((rollbackLoop bm s fuel).pages i).pid = (bm.pages i).pid) ∧
      (rollbackLoop bm s fuel).capacity = bm.capacity := by
  intro D
  induction D with
  | nil =>
    intro bm s fuel F B hD _ hF _ hB _ _ _ _ hfuel
    have hs0 : s = 0 := hD.start_zero
    cases fuel with
    | zero => omega
    | succ f =>
      subst hs0
      simp only [rollbackLoop, if_pos rfl]
      exact ⟨hF, ⟨B, hB, fun j i hi => ⟨hi, by simp⟩⟩, fun i => rfl, rfl⟩
  | cons d t ih =>
    intro bm s fuel F B hD hnd hF hdisj hB hBnd hBuniq hBmem hBlen hfuel
    have hsd : d = s := hD.head_eq.symm
    subst hsd
    have hne : d ≠ 0 := by cases hD with | cons _ _ hne _ => exact hne
    have htail : NChain (fun i => (bm.pages i).next) ((bm.pages d).next) t := by
      cases hD with | cons _ _ _ hq => exact hq
    have hdt : d ∉ t := (List.nodup_cons.mp hnd).1
    have htnd : t.Nodup := (List.nodup_cons.mp hnd).2
    cases fuel with
    | zero => omega
    | succ f =>
      have hstep : rollbackLoop bm d (f + 1) =
          rollbackLoop (bm.throw_buffer d) ((bm.pages d).next) f := by
        simp [rollbackLoop, hne]
      have htb := fun i => throw_buffer_pages bm d i
      -- the tail of the dirty list survives as a chain in bm.throw_buffer d
      have htail1 : NChain (fun i => (((bm.throw_buffer d)).pages i).next)
          ((bm.pages d).next) t := by
        refine htail.of_eq (fun i hi => ?_)
        have hid : i ≠ d := fun he => hdt (he ▸ hi)
        rw [(htb i).1, if_neg hid]
      -- the free chain in bm.throw_buffer d realizes d :: F
      have hfree1 : NChain (fun i => (((bm.throw_buffer d)).pages i).next)
          ((bm.throw_buffer d).free_pages) (d :: F) := by
        rw [(htb 0).2.2.2.1]
        refine NChain.cons d F hne ?_
        have hdF : ((bm.throw_buffer d).pages d).next = bm.free_pages := by
          rw [(htb d).1, if_pos rfl]
        rw [hdF]
        refine hF.of_eq (fun i hi => ?_)
        have hid : i ≠ d := fun he => hdisj d (List.mem_cons_self d t) (he ▸ hi)
        rw [(htb i).1, if_neg hid]
      -- the hash buckets of bm.throw_buffer d realize B with d erased
      have hmemd : d ∈ B ((bm.pages d).pid % bm.capacity) :=
        hBmem d (List.mem_cons_self d t)
      have hrs := hashRemove_spec bm d B hB hBnd hBuniq hmemd hBlen
      have hB1 : ∀ j, NChain (fun i => (((bm.throw_buffer d)).pages i).collision)
          ((bm.throw_buffer d).hash_table j) ((B j).erase d) := by
        intro j
        rw [(htb 0).2.2.2.2.1]
        exact (hrs j).of_eq (fun i _ => (htb i).2.1)
      -- remaining dirty buffers still sit in their (erased) buckets
      have hBmem1 : ∀ x ∈ t, x ∈
          ((B (((bm.throw_buffer d).pages x).pid % (bm.throw_buffer d).capacity)).erase d) := by
        intro x hx
        have hxd : x ≠ d := fun he => hdt (he ▸ hx)
        rw [(htb x).2.2.1, (htb 0).2.2.2.2.2]
        exact (List.mem_erase_of_ne hxd).mpr (hBmem x (List.mem_cons_of_mem d hx))
      obtain ⟨hfree', ⟨Bf, hBfch, hBfsub⟩, hpid', hcap'⟩ :=
        ih (bm.throw_buffer d) ((bm.pages d).next) f (d :: F)
          (fun j => (B j).erase d) htail1 htnd hfree1
          (fun x hx hmem => by
            rcases List.mem_cons.mp hmem with he | hmF
            · exact hdt (he ▸ hx)
            · exact hdisj x (List.mem_cons_of_mem d hx) hmF)
          hB1 (fun j => (hBnd j).erase d)
          (fun i j j' h1 h2 =>
            hBuniq i j j' (List.mem_of_mem_erase h1) (List.mem_of_mem_erase h2))
          hBmem1
          (fun j => by
            rw [(htb 0).2.2.2.2.2]
            exact le_trans (List.erase_sublist d (B j)).length_le (hBlen j))
          (by simpa using Nat.lt_of_succ_lt_succ hfuel)
      rw [hstep]
      have hlist : (d :: t).reverse ++ F = t.reverse ++ (d :: F) := by simp
      refine ⟨hlist ▸ hfree', ⟨Bf, hBfch, ?_⟩, ?_, ?_⟩
      · intro j i hi
        obtain ⟨hiB, hit⟩ := hBfsub j i hi
        have hiBj : i ∈ B j := List.mem_of_mem_erase hiB
        have hid : i ≠ d := ((hBnd j).mem_erase_iff.mp hiB).1
        exact ⟨hiBj, by simp [hid, hit]⟩
      · intro i
        rw [hpid' i, (htb i).2.2.1]
      · rw [hcap', (htb 0).2.2.2.2.2]

/-- C5: rollback writes neither the data file nor the WAL; every dirty
buffer is removed from its hash bucket and pushed onto the free list; the
dirty-list head, the dirtied counter and next_sync are reset to 0; wal_pos
is rewound by exactly tx_size; tx_crc and tx_size are cleared; and when
meta_updated the in-memory Metadata is restored by re-reading page 0 of the
data file (otherwise meta and the pool are untouched). -/
theorem C5_rollback_spec (s : StoreSt) (D F : List Nat) (B : Nat → List Nat)
    (hD : NChain (fun i => (s.bm.pages i).next) s.bm.dirty_pages D)
    (hnd : D.Nodup)
    (hF : NChain (fun i => (s.bm.pages i).next) s.bm.free_pages F)
    (hdisj : ∀ x ∈ D, x ∉ F)
    (hB : ∀ j, NChain (fun i => (s.bm.pages i).collision) (s.bm.hash_table j) (B j))
    (hBnd : ∀ j, (B j).Nodup)
    (hBuniq : ∀ i j j', i ∈ B j → i ∈ B j' → j = j')
    (hBmem : ∀ x ∈ D, x ∈ B ((s.bm.pages x).pid % s.bm.capacity))
    (hBlen : ∀ j, (B j).length ≤ s.bm.capacity)
    (hDlen : D.length ≤ s.bm.capacity)
    (htx : s.db.tx_size ≤ s.db.wal_pos) :
    s.rollback.file = s.file ∧
    s.rollback.log = s.log ∧
    NChain (fun i => (s.rollback.bm.pages i).next)
      s.rollback.bm.free_pages (D.reverse ++ F) ∧
    (∃ Bf : Nat → List Nat,
      (∀ j, NChain (fun i => (s.rollback.bm.pages i).collision)
        (s.rollback.bm.hash_table j) (Bf j)) ∧
      (∀ j i, i ∈ Bf j → i ∈ B j ∧ i ∉ D)) ∧
    s.rollback.bm.dirty_pages = 0 ∧
    s.rollback.bm.dirtied = 0 ∧
    s.rollback.bm.next_sync = 0 ∧
    s.rollback.db.wal_pos + s.db.tx_size = s.db.wal_pos ∧
    s.rollback.db.tx_crc = 0 ∧
    s.rollback.db.tx_size = 0 ∧
    s.rollback.db.meta_updated = false ∧
    (s.db.meta_updated = true →
      s.rollback.db.meta = Metadata.unpack (s.file 0) ∧
      s.rollback.pool 0 = s.file 0) ∧
    (s.db.meta_updated = false →
      s.rollback.db.meta = s.db.meta ∧ s.rollback.pool = s.pool) := by
  obtain ⟨hfree, hbuckets, hpid, hcap⟩ :=
    rollbackLoop_spec D s.bm s.bm.dirty_pages (s.bm.capacity + 1) F B
      hD hnd hF hdisj hB hBnd hBuniq hBmem hBlen (by omega)
  cases hmu : s.db.meta_updated with
  | false =>
    have hrb : s.rollback = { s with
        db := { s.db with wal_pos := s.db.wal_pos - s.db.tx_size,
                          tx_crc := 0, tx_size := 0 },
        bm := { rollbackLoop s.bm s.bm.dirty_pages (s.bm.capacity + 1) with
                dirty_pages := 0, dirtied := 0, next_sync := 0 } } := by
      simp only [StoreSt.rollback, hmu, Bool.false_eq_true, if_false]
    rw [hrb]
    refine ⟨rfl, rfl, hfree, hbuckets, rfl, rfl, rfl, ?_, rfl, rfl, hmu, ?_, ?_⟩
    · show s.db.wal_pos - s.db.tx_size + s.db.tx_size = s.db.wal_pos
      omega
    · intro h; exact absurd h (by simp [hmu])
    · intro _; exact ⟨rfl, rfl⟩
  | true =>
    have hrb : s.rollback = { s with
        db := { s.db with meta := Metadata.unpack (s.file 0), meta_updated := false,
                          wal_pos := s.db.wal_pos - s.db.tx_size,
                          tx_crc := 0, tx_size := 0 },
        bm := { rollbackLoop s.bm s.bm.dirty_pages (s.bm.capacity + 1) with
                dirty_pages := 0, dirtied := 0, next_sync := 0 },
        pool := fun i => if i = 0 then s.file 0 else s.pool i } := by
      simp only [StoreSt.rollback, hmu, if_true]
    rw [hrb]
    refine ⟨rfl, rfl, hfree, hbuckets, rfl, rfl, rfl, ?_, rfl, rfl, rfl, ?_, ?_⟩
    · show s.db.wal_pos - s.db.tx_size + s.db.tx_size = s.db.wal_pos
      omega
    · intro _; exact ⟨rfl, by simp⟩
    · intro h; exact absurd h (by simp [hmu])

/-- A concrete store with one dirty buffer (id 2, pid 7) for the rollback
witness. -/
def sC5 : StoreSt :=
  { db := { meta := { free := 0, size := 0, root := 0, height := 0 },
            meta_updated := false, wal_pos := 100, tx_crc := 9, tx_size := 40 },
    bm := { head := 0, tail := 0, free_pages := 0, dirty_pages := 2,
            next_sync := 2, used := 3, pinned := 1, dirtied := 1, cached := 1,
            capacity := 4,
            hash_table := fun i => if i = 3 then 2 else 0,
            pages := fun i =>
              if i = 2 then
                { pid := 7, collision := 0, next := 0, prev := 0,
                  access_count := 1, state := 4 }
              else Buffer.new },
    pool := fun _ => zeroPage, file := fun _ => zeroPage, log := [] }

def bC5 : Nat → List Nat := fun j => if j = 3 then [2] else []

/-- Witness for C5 at the concrete store sC5: buffer 2 moves to the free
list, the buckets lose it, the counters reset and wal_pos rewinds by 40. -/
theorem C5_rollback_witness :
    sC5.rollback.file = sC5.file ∧
    sC5.rollback.log = sC5.log ∧
    NChain (fun i => (sC5.rollback.bm.pages i).next)
      sC5.rollback.bm.free_pages ([2].reverse ++ []) ∧
    (∃ Bf : Nat → List Nat,
      (∀ j, NChain (fun i => (sC5.rollback.bm.pages i).collision)
        (sC5.rollback.bm.hash_table j) (Bf j)) ∧
      (∀ j i, i ∈ Bf j → i ∈ bC5 j ∧ i ∉ [2])) ∧
    sC5.rollback.bm.dirty_pages = 0 ∧
    sC5.rollback.bm.dirtied = 0 ∧
    sC5.rollback.bm.next_sync = 0 ∧
    sC5.rollback.db.wal_pos + sC5.db.tx_size = sC5.db.wal_pos ∧
    sC5.rollback.db.tx_crc = 0 ∧
    sC5.rollback.db.tx_size = 0 ∧
    sC5.rollback.db.meta_updated = false ∧
    (sC5.db.meta_updated = true →
      sC5.rollback.db.meta = Metadata.unpack (sC5.file 0) ∧
      sC5.rollback.pool 0 = sC5.file 0) ∧
    (sC5.db.meta_updated = false →
      sC5.rollback.db.meta = sC5.db.meta ∧ sC5.rollback.pool = sC5.pool) := by
  have hD : NChain (fun i => (sC5.bm.pages i).next) sC5.bm.dirty_pages [2] := by
    have h1 : sC5.bm.dirty_pages = 2 := rfl
    rw [h1]
    refine NChain.cons 2 [] (by decide) ?_
    have h2 : (sC5.bm.pages 2).next = 0 := rfl
    rw [h2]
    exact NChain.nil
  have hF : NChain (fun i => (sC5.bm.pages i).next) sC5.bm.free_pages [] :=
    NChain.nil
  have hB : ∀ j, NChain (fun i => (sC5.bm.pages i).collision)
      (sC5.bm.hash_table j) (bC5 j) := by
    intro j
    by_cases hj : j = 3
    · subst hj
      have h1 : sC5.bm.hash_table 3 = 2 := rfl
      have h2 : bC5 3 = [2] := rfl
      rw [h1, h2]
      refine NChain.cons 2 [] (by decide) ?_
      have h3 : (sC5.bm.pages 2).collision = 0 := rfl
      rw [h3]
      exact NChain.nil
    · have h1 : sC5.bm.hash_table j = 0 := by simp [sC5, hj]
      have h2 : bC5 j = [] := by simp [bC5, hj]
      rw [h1, h2]
      exact NChain.nil
  have hBuniq : ∀ i j j', i ∈ bC5 j → i ∈ bC5 j' → j = j' := by
    intro i j j' h1 h2
    by_cases hj : j = 3
    · by_cases hj' : j' = 3
      · rw [hj, hj']
      · simp [bC5, hj'] at h2
    · simp [bC5, hj] at h1
  have hBmem : ∀ x ∈ [2], x ∈ bC5 ((sC5.bm.pages x).pid % sC5.bm.capacity) := by
    intro x hx
    have hx2 : x = 2 := by simpa using hx
    subst hx2
    have h1 : (sC5.bm.pages 2).pid % sC5.bm.capacity = 3 := rfl
    rw [h1]
    decide
  exact C5_rollback_spec sC5 [2] [] bC5 hD (by decide) hF (by simp) hB
    (by intro j; by_cases hj : j = 3 <;> simp [bC5, hj]) hBuniq hBmem
    (by intro j; by_cases hj : j = 3 <;> simp [bC5, hj, sC5])
    (by decide) (by decide)

/-! ## C10: insert_item on a well-formed slotted page -/

theorem writeBytes_out {p : PageBytes} {o : Nat} {bs : List Nat} {x : Nat}
    (h : x < o ∨ o + bs.length ≤ x) : writeBytes p o bs x = p x := by
  simp only [writeBytes]
  rw [if_neg]
  omega

theorem writeByte_out {p : PageBytes} {o v x : Nat} (h : x ≠ o) :
    writeByte p o v x = p x := by
  simp only [writeByte]
  rw [if_neg h]

theorem copy_within_out {p : PageBytes} {src srcEnd dst x : Nat}
    (h : x < dst ∨ dst + (srcEnd - src) ≤ x) :
    copy_within p src srcEnd dst x = p x := by
  simp only [copy_within]
  rw [if_neg]
  omega

theorem copy_within_in {p : PageBytes} {src srcEnd dst x : Nat}
    (h1 : dst ≤ x) (h2 : x < dst + (srcEnd - src)) :
    copy_within p src srcEnd dst x = p (src + (x - dst)) := by
  simp only [copy_within]
  rw [if_pos ⟨h1, h2⟩]

theorem set_u16_out {p : PageBytes} {o v x : Nat} (h1 : x ≠ o) (h2 : x ≠ o + 1) :
    set_u16 p o v x = p x := by
  simp only [set_u16]
  rw [if_neg h1, if_neg h2]

theorem get_u16_set_u16 {p : PageBytes} {o v : Nat} (h : v < 65536) :
    get_u16 (set_u16 p o v) o = v := by
  have h1 : o + 1 ≠ o := by omega
  have h2 : o ≠ o + 1 := by omega
  simp [get_u16, set_u16, h1, h2]
  omega

theorem set_offs_out {p : PageBytes} {a v x : Nat}
    (h : x < PAGE_HEADER_SIZE + a * 2 ∨ PAGE_HEADER_SIZE + a * 2 + 2 ≤ x) :
    set_offs p a v x = p x := by
  have hph : PAGE_HEADER_SIZE = 2 := rfl
  refine set_u16_out (by omega) (by omega)

theorem get_offs_set_offs_ne {p : PageBytes} {a b v : Nat} (h : a ≠ b) :
    get_offs (set_offs p a v) b = get_offs p b := by
  have hph : PAGE_HEADER_SIZE = 2 := rfl
  simp only [get_offs, get_u16]
  rw [set_offs_out (by omega), set_offs_out (by omega)]

theorem get_offs_set_offs_self {p : PageBytes} {a v : Nat} (h : v < 65536) :
    get_offs (set_offs p a v) a = v :=
  get_u16_set_u16 h

theorem set_offs_lt {p : PageBytes} {a v : Nat} (hp : ∀ x, p x < 256) :
    ∀ x, set_offs p a v x < 256 := by
  intro x
  simp only [set_offs, set_u16]
  split_ifs <;> first | omega | exact hp x

theorem get_u16_lt {p : PageBytes} (hp : ∀ x, p x < 256) (o : Nat) :
    get_u16 p o < 65536 := by
  have h1 := hp o
  have h2 := hp (o + 1)
  simp only [get_u16]
  omega

theorem readBytes_congr {p q : PageBytes} {o len : Nat}
    (h : ∀ x, o ≤ x → x < o + len → p x = q x) :
    readBytes p o len = readBytes q o len := by
  simp only [readBytes]
  refine List.map_congr_left (fun j hj => ?_)
  have hjl : j < len := List.mem_range.mp hj
  exact h (o + j) (by omega) (by omega)

theorem readBytes_shift {q p : PageBytes} {o L len : Nat}
    (h : ∀ x, o ≤ x → x < o + len → q x = p (x + L)) :
    readBytes q o len = readBytes p (o + L) len := by
  simp only [readBytes]
  refine List.map_congr_left (fun j hj => ?_)
  have hjl : j < len := List.mem_range.mp hj
  rw [h (o + j) (by omega) (by omega)]
  congr 1
  omega

theorem readBytes_writeBytes {p : PageBytes} {o : Nat} {bs : List Nat}
    (hb : ∀ b ∈ bs, b < 256) :
    readBytes (writeBytes p o bs) o bs.length = bs := by
  refine List.ext_getElem (by simp [readBytes]) (fun i h1 h2 => ?_)
  simp only [readBytes, List.getElem_map, List.getElem_range, writeBytes]
  have hi : i < bs.length := by simpa [readBytes] using h2
  rw [if_pos (by omega)]
  have hnth : bs.getD (o + i - o) 0 = bs[i] := by
    have : o + i - o = i := by omega
    rw [this]
    exact List.getD_eq_getElem bs 0 hi
  rw [hnth, Nat.mod_eq_of_lt (hb bs[i] (List.getElem_mem hi))]

/-- The upper boundary of slot j's item: PAGE_SIZE for slot 0, the previous
slot's offset otherwise (items are allocated right to left). -/
def bnd (p : PageBytes) (j : Nat) : Nat :=
  if j = 0 then PAGE_SIZE else get_offs p (j - 1)

/-- Well-formed slotted page: bytes are u8 values, each slot's item lies
strictly below its boundary (offsets descend with the index) and each key
together with its length byte fits inside its item. -/
structure WfPage (p : PageBytes) : Prop where
  bytes : ∀ x, p x < 256
  desc : ∀ j, j < get_n_items p → get_offs p j < bnd p j
  keyfit : ∀ j, j < get_n_items p →
    1 + p (get_offs p j) ≤ bnd p j - get_offs p j

theorem wf_mono {p : PageBytes} (hwf : WfPage p) :
    ∀ j, j < get_n_items p → ∀ i, i ≤ j → get_offs p j ≤ get_offs p i := by
  intro j
  induction j with
  | zero =>
    intro _ i hi
    have h0 : i = 0 := by omega
    rw [h0]
  | succ k ih =>
    intro hj i hi
    rcases Nat.lt_or_ge i (k + 1) with hlt | hge
    · have h1 : get_offs p (k + 1) < bnd p (k + 1) := hwf.desc (k + 1) hj
      have h2 : bnd p (k + 1) = get_offs p k := by simp [bnd]
      have h3 : get_offs p k ≤ get_offs p i := ih (by omega) i (by omega)
      omega
    · have : i = k + 1 := by omega
      rw [this]

theorem wf_lt_page {p : PageBytes} (hwf : WfPage p) :
    ∀ j, j < get_n_items p → get_offs p j < PAGE_SIZE := by
  intro j hj
  have h1 : get_offs p j ≤ get_offs p 0 := wf_mono hwf j hj 0 (by omega)
  have h2 : get_offs p 0 < bnd p 0 := hwf.desc 0 (by omega)
  have h3 : bnd p 0 = PAGE_SIZE := by simp [bnd]
  omega

theorem wf_origin {p : PageBytes} (hwf : WfPage p) (hn : get_n_items p ≠ 0) :
    PAGE_SIZE - get_size p = get_offs p (get_n_items p - 1) := by
  have h1 : get_offs p (get_n_items p - 1) < PAGE_SIZE :=
    wf_lt_page hwf _ (by omega)
  simp only [get_size, if_neg hn]
  omega

/-- The offset-shifting fold of insert_item's true branch: slots ip+1..ip+k
take the previous slot's offset minus L, other slots and all bytes outside
the written offset range are untouched, and bytes stay below 256. -/
theorem insShift_spec (L : Nat) :
    ∀ (k ip : Nat) (q : PageBytes), (∀ x, q x < 256) →
      (∀ j, ip + 1 ≤ j → j ≤ ip + k →
        get_offs ((List.range' ip k).reverse.foldl
          (fun r i => set_offs r (i + 1) (get_offs r i - L)) q) j
          = get_offs q (j - 1) - L) ∧
      (∀ j, j ≤ ip ∨ ip + k < j →
        get_offs ((List.range' ip k).reverse.foldl
          (fun r i => set_offs r (i + 1) (get_offs r i - L)) q) j = get_offs q j) ∧
      (∀ x, x < PAGE_HEADER_SIZE + 2 * ip + 2 ∨ PAGE_HEADER_SIZE + 2 * ip + 2 * k + 2 ≤ x →
        ((List.range' ip k).reverse.foldl
          (fun r i => set_offs r (i + 1) (get_offs r i - L)) q) x = q x) ∧
      (∀ x, ((List.range' ip k).reverse.foldl
          (fun r i => set_offs r (i + 1) (get_offs r i - L)) q) x < 256) := by
  intro k
  induction k with
  | zero =>
    intro ip q hq
    have h0 : (List.range' ip 0).reverse = ([] : List Nat) := rfl
    rw [h0]
    simp only [List.foldl_nil]
    exact ⟨fun j h1 h2 => by omega, fun j _ => trivial, fun x _ => trivial, hq⟩
  | succ k ih =>
    intro ip q hq
    have hsplit : List.range' ip (k + 1) = List.range' ip k ++ [ip + k] := by
      simp [List.range'_concat]
    have hrev : (List.range' ip (k + 1)).reverse =
        (ip + k) :: (List.range' ip k).reverse := by
      rw [hsplit]
      simp
    rw [hrev, List.foldl_cons]
    have hq' : ∀ x, (set_offs q (ip + k + 1) (get_offs q (ip + k) - L)) x < 256 :=
      set_offs_lt hq
    obtain ⟨ih1, ih2, ih3, ih4⟩ :=
      ih ip (set_offs q (ip + k + 1) (get_offs q (ip + k) - L)) hq'
    refine ⟨?_, ?_, ?_, ih4⟩
    · intro j h1 h2
      rcases Nat.lt_or_ge j (ip + k + 1) with hlt | hge
      · rw [ih1 j h1 (by omega), get_offs_set_offs_ne (by omega)]
      · have hj : j = ip + k + 1 := by omega
        rw [hj, ih2 (ip + k + 1) (Or.inr (by omega)),
          get_offs_set_offs_self (by have := get_u16_lt hq (PAGE_HEADER_SIZE + (ip + k) * 2); have h3 : get_offs q (ip + k) < 65536 := this; omega)]
        simp
    · intro j hj
      have hj' : j ≤ ip ∨ ip + k < j := by omega
      rw [ih2 j hj', get_offs_set_offs_ne (by omega)]
    · intro x hx
      have hx' : x < PAGE_HEADER_SIZE + 2 * ip + 2 ∨
          PAGE_HEADER_SIZE + 2 * ip + 2 * k + 2 ≤ x := by omega
      rw [ih3 x hx', set_offs_out (by have hph : PAGE_HEADER_SIZE = 2 := rfl; omega)]

/-- The page after insert_item's offset-shifting fold. -/
def insP1 (p : PageBytes) (ip : Nat) (key value : List Nat) : PageBytes :=
  ((List.range' ip (get_n_items p - ip)).reverse).foldl
    (fun q i => set_offs q (i + 1)
      (get_offs q i - (1 + key.length + value.length))) p

/-- The offset at which insert_item places the new item. -/
def insOffs (p : PageBytes) (ip : Nat) (key value : List Nat) : Nat :=
  if ip ≠ 0 then
    get_offs (insP1 p ip key value) (ip - 1) - (1 + key.length + value.length)
  else PAGE_SIZE - (1 + key.length + value.length)

/-- The page insert_item returns in its true branch, staged for reasoning. -/
def insFinal (p : PageBytes) (ip : Nat) (key value : List Nat) : PageBytes :=
  set_n_items
    (writeBytes
      (writeBytes
        (writeByte
          (copy_within
            (set_offs (insP1 p ip key value) ip (insOffs p ip key value))
            (PAGE_SIZE - get_size p)
            (insOffs p ip key value + (1 + key.length + value.length))
            (PAGE_SIZE - get_size p - (1 + key.length + value.length)))
          (insOffs p ip key value) key.length)
        (insOffs p ip key value + 1) key)
      (insOffs p ip key value + 1 + key.length) value)
    (get_n_items p + 1)

theorem insert_item_eq (p : PageBytes) (ip : Nat) (key value : List Nat)
    (hfit : (get_n_items p + 1) * 2 + get_size p + (1 + key.length + value.length)
      ≤ PAGE_SIZE - PAGE_HEADER_SIZE) :
    insert_item p ip key value = (insFinal p ip key value, true) := by
  simp only [insert_item, insFinal, insP1, insOffs]
  rw [if_pos hfit]

theorem insert_item_false (p : PageBytes) (ip : Nat) (key value : List Nat)
    (hfit : ¬((get_n_items p + 1) * 2 + get_size p + (1 + key.length + value.length)
      ≤ PAGE_SIZE - PAGE_HEADER_SIZE)) :
    insert_item p ip key value = (p, false) := by
  simp only [insert_item]
  rw [if_neg hfit]

theorem insFinal_spec (p : PageBytes) (ip : Nat) (key value : List Nat)
    (hwf : WfPage p) (hip : ip ≤ get_n_items p) (hk : key.length < 256)
    (hkb : ∀ b ∈ key, b < 256) (hvb : ∀ b ∈ value, b < 256)
    (hfit : (get_n_items p + 1) * 2 + get_size p + (1 + key.length + value.length)
      ≤ PAGE_SIZE - PAGE_HEADER_SIZE) :
    get_n_items (insFinal p ip key value) = get_n_items p + 1 ∧
    (∀ j, j < ip → get_offs (insFinal p ip key value) j = get_offs p j) ∧
    get_offs (insFinal p ip key value) ip
      = bnd p ip - (1 + key.length + value.length) ∧
    (∀ j, ip < j → j ≤ get_n_items p →
      get_offs (insFinal p ip key value) j
        = get_offs p (j - 1) - (1 + key.length + value.length)) ∧
    (∀ x, bnd p ip ≤ x → insFinal p ip key value x = p x) ∧
    (∀ x, PAGE_SIZE - get_size p - (1 + key.length + value.length) ≤ x →
      x < bnd p ip - (1 + key.length + value.length) →
      insFinal p ip key value x = p (x + (1 + key.length + value.length))) ∧
    insFinal p ip key value (bnd p ip - (1 + key.length + value.length))
      = key.length ∧
    readBytes (insFinal p ip key value)
      (bnd p ip - (1 + key.length + value.length) + 1) key.length = key ∧
    readBytes (insFinal p ip key value)
      (bnd p ip - (1 + key.length + value.length) + 1 + key.length)
      value.length = value := by
  have hps : PAGE_SIZE = 8192 := rfl
  have hph : PAGE_HEADER_SIZE = 2 := rfl
  have hbytes := hwf.bytes
  have hsize_le : get_size p ≤ PAGE_SIZE := by
    by_cases h0 : get_n_items p = 0
    · simp [get_size, h0, hps]
    · simp only [get_size, if_neg h0]
      omega
  have hO : 2 + 2 * get_n_items p + 2 + (1 + key.length + value.length)
      ≤ PAGE_SIZE - get_size p := by omega
  have hObnd : PAGE_SIZE - get_size p ≤ bnd p ip := by
    by_cases h0 : get_n_items p = 0
    · have hip0 : ip = 0 := by omega
      simp [bnd, hip0, get_size, h0]
    · rw [wf_origin hwf h0]
      by_cases hip0 : ip = 0
      · simp only [bnd, if_pos hip0]
        exact le_of_lt (wf_lt_page hwf _ (by omega))
      · simp only [bnd, if_neg hip0]
        exact wf_mono hwf (get_n_items p - 1) (by omega) (ip - 1) (by omega)
  have hbnd_le : bnd p ip ≤ PAGE_SIZE := by
    by_cases hip0 : ip = 0
    · simp [bnd, hip0]
    · simp only [bnd, if_neg hip0]
      exact le_of_lt (wf_lt_page hwf (ip - 1) (by omega))
  obtain ⟨hf1, hf2, hf3, hf4⟩ := insShift_spec (1 + key.length + value.length)
    (get_n_items p - ip) ip p hbytes
  have h1 : ∀ j, ip + 1 ≤ j → j ≤ ip + (get_n_items p - ip) →
      get_offs (insP1 p ip key value) j
        = get_offs p (j - 1) - (1 + key.length + value.length) := hf1
  have h2 : ∀ j, j ≤ ip ∨ ip + (get_n_items p - ip) < j →
      get_offs (insP1 p ip key value) j = get_offs p j := hf2
  have h3 : ∀ x, x < PAGE_HEADER_SIZE + 2 * ip + 2 ∨
      PAGE_HEADER_SIZE + 2 * ip + 2 * (get_n_items p - ip) + 2 ≤ x →
      insP1 p ip key value x = p x := hf3
  have hio : insOffs p ip key value
      = bnd p ip - (1 + key.length + value.length) := by
    by_cases hip0 : ip = 0
    · simp [insOffs, hip0, bnd]
    · simp only [insOffs, if_pos hip0]
      rw [h2 (ip - 1) (Or.inl (by omega))]
      simp only [bnd, if_neg hip0]
  have hiov : insOffs p ip key value < 65536 := by
    rw [hio]
    omega
  -- (E) item count
  have hE : get_n_items (insFinal p ip key value) = get_n_items p + 1 := by
    have hn4 : get_n_items p + 1 < 65536 := by omega
    show get_u16 (set_u16 _ 0 (get_n_items p + 1)) 0 = get_n_items p + 1
    exact get_u16_set_u16 hn4
  -- bytes below the item area and at/after offset slot end are only touched
  -- by the set_offs at slot ip
  have hlow : ∀ x, 2 ≤ x → x < PAGE_HEADER_SIZE + 2 * get_n_items p + 2 →
      insFinal p ip key value x
        = set_offs (insP1 p ip key value) ip (insOffs p ip key value) x := by
    intro x hx2 hxhi
    simp only [insFinal, set_n_items]
    rw [hio]
    rw [set_u16_out (by omega) (by omega)]
    rw [writeBytes_out (Or.inl (by omega))]
    rw [writeBytes_out (Or.inl (by omega))]
    rw [writeByte_out (by omega)]
    rw [copy_within_out (Or.inl (by omega))]
  -- (D1) slots below ip
  have hD1 : ∀ j, j < ip →
      get_offs (insFinal p ip key value) j = get_offs p j := by
    intro j hj
    have hb1 : insFinal p ip key value (PAGE_HEADER_SIZE + j * 2)
        = set_offs (insP1 p ip key value) ip (insOffs p ip key value)
            (PAGE_HEADER_SIZE + j * 2) := hlow _ (by omega) (by omega)
    have hb2 : insFinal p ip key value (PAGE_HEADER_SIZE + j * 2 + 1)
        = set_offs (insP1 p ip key value) ip (insOffs p ip key value)
            (PAGE_HEADER_SIZE + j * 2 + 1) := hlow _ (by omega) (by omega)
    have hg : get_offs (insFinal p ip key value) j
        = get_offs (set_offs (insP1 p ip key value) ip (insOffs p ip key value)) j := by
      simp only [get_offs, get_u16]
      rw [hb1, hb2]
    rw [hg, get_offs_set_offs_ne (by omega), h2 j (Or.inl (by omega))]
  -- (D2) slot ip
  have hD2 : get_offs (insFinal p ip key value) ip
      = bnd p ip - (1 + key.length + value.length) := by
    have hb1 : insFinal p ip key value (PAGE_HEADER_SIZE + ip * 2)
        = set_offs (insP1 p ip key value) ip (insOffs p ip key value)
            (PAGE_HEADER_SIZE + ip * 2) := hlow _ (by omega) (by omega)
    have hb2 : insFinal p ip key value (PAGE_HEADER_SIZE + ip * 2 + 1)
        = set_offs (insP1 p ip key value) ip (insOffs p ip key value)
            (PAGE_HEADER_SIZE + ip * 2 + 1) := hlow _ (by omega) (by omega)
    have hg : get_offs (insFinal p ip key value) ip
        = get_offs (set_offs (insP1 p ip key value) ip (insOffs p ip key value)) ip := by
      simp only [get_offs, get_u16]
      rw [hb1, hb2]
    rw [hg, get_offs_set_offs_self hiov, hio]
  -- (D3) slots above ip
  have hD3 : ∀ j, ip < j → j ≤ get_n_items p →
      get_offs (insFinal p ip key value) j
        = get_offs p (j - 1) - (1 + key.length + value.length) := by
    intro j hj1 hj2
    have hb1 : insFinal p ip key value (PAGE_HEADER_SIZE + j * 2)
        = set_offs (insP1 p ip key value) ip (insOffs p ip key value)
            (PAGE_HEADER_SIZE + j * 2) := hlow _ (by omega) (by omega)
    have hb2 : insFinal p ip key value (PAGE_HEADER_SIZE + j * 2 + 1)
        = set_offs (insP1 p ip key value) ip (insOffs p ip key value)
            (PAGE_HEADER_SIZE + j * 2 + 1) := hlow _ (by omega) (by omega)
    have hg : get_offs (insFinal p ip key value) j
        = get_offs (set_offs (insP1 p ip key value) ip (insOffs p ip key value)) j := by
      simp only [get_offs, get_u16]
      rw [hb1, hb2]
    rw [hg, get_offs_set_offs_ne (by omega), h1 j (by omega) (by omega)]
  -- (A) bytes at or above the insert boundary are untouched
  have hA : ∀ x, bnd p ip ≤ x → insFinal p ip key value x = p x := by
    intro x hx
    simp only [insFinal, set_n_items]
    rw [hio]
    rw [set_u16_out (by omega) (by omega)]
    rw [writeBytes_out (Or.inr (by omega))]
    rw [writeBytes_out (Or.inr (by omega))]
    rw [writeByte_out (by omega)]
    rw [copy_within_out (Or.inr (by omega))]
    rw [set_offs_out (Or.inr (by omega))]
    exact h3 x (Or.inr (by omega))
  -- (B) the moved block: bytes shift down by the item length
  have hB : ∀ x, PAGE_SIZE - get_size p - (1 + key.length + value.length) ≤ x →
      x < bnd p ip - (1 + key.length + value.length) →
      insFinal p ip key value x = p (x + (1 + key.length + value.length)) := by
    intro x hx1 hx2
    simp only [insFinal, set_n_items]
    rw [hio]
    rw [set_u16_out (by omega) (by omega)]
    rw [writeBytes_out (Or.inl (by omega))]
    rw [writeBytes_out (Or.inl (by omega))]
    rw [writeByte_out (by omega)]
    rw [copy_within_in (by omega) (by omega)]
    rw [set_offs_out (Or.inr (by omega))]
    rw [h3 _ (Or.inr (by omega))]
    congr 1
    omega
  -- (C1) the key-length byte of the new item
  have hC1 : insFinal p ip key value
      (bnd p ip - (1 + key.length + value.length)) = key.length := by
    simp only [insFinal, set_n_items]
    rw [hio]
    rw [set_u16_out (by omega) (by omega)]
    rw [writeBytes_out (Or.inl (by omega))]
    rw [writeBytes_out (Or.inl (by omega))]
    simp [writeByte, Nat.mod_eq_of_lt hk]
  -- (C2) the key bytes of the new item
  have hC2 : readBytes (insFinal p ip key value)
      (bnd p ip - (1 + key.length + value.length) + 1) key.length = key := by
    have hpt : ∀ x, bnd p ip - (1 + key.length + value.length) + 1 ≤ x →
        x < bnd p ip - (1 + key.length + value.length) + 1 + key.length →
        insFinal p ip key value x
          = writeBytes
              (writeByte
                (copy_within
                  (set_offs (insP1 p ip key value) ip (insOffs p ip key value))
                  (PAGE_SIZE - get_size p)
                  (insOffs p ip key value + (1 + key.length + value.length))
                  (PAGE_SIZE - get_size p - (1 + key.length + value.length)))
                (insOffs p ip key value) key.length)
              (insOffs p ip key value + 1) key x := by
      intro x hx1 hx2
      simp only [insFinal, set_n_items]
      rw [hio]
      rw [set_u16_out (by omega) (by omega)]
      rw [writeBytes_out (Or.inl (by omega))]
    rw [readBytes_congr hpt]
    have hsame : insOffs p ip key value + 1
        = bnd p ip - (1 + key.length + value.length) + 1 := by rw [hio]
    rw [← hsame]
    exact readBytes_writeBytes hkb
  -- (C3) the value bytes of the new item
  have hC3 : readBytes (insFinal p ip key value)
      (bnd p ip - (1 + key.length + value.length) + 1 + key.length)
      value.length = value := by
    have hpt : ∀ x, bnd p ip - (1 + key.length + value.length) + 1 + key.length ≤ x →
        x < bnd p ip - (1 + key.length + value.length) + 1 + key.length + value.length →
        insFinal p ip key value x
          = writeBytes
              (writeBytes
                (writeByte
                  (copy_within
                    (set_offs (insP1 p ip key value) ip (insOffs p ip key value))
                    (PAGE_SIZE - get_size p)
                    (insOffs p ip key value + (1 + key.length + value.length))
                    (PAGE_SIZE - get_size p - (1 + key.length + value.length)))
                  (insOffs p ip key value) key.length)
                (insOffs p ip key value + 1) key)
              (insOffs p ip key value + 1 + key.length) value x := by
      intro x hx1 hx2
      simp only [insFinal, set_n_items]
      rw [hio]
      rw [set_u16_out (by omega) (by omega)]
    rw [readBytes_congr hpt]
    have hsame : insOffs p ip key value + 1 + key.length
        = bnd p ip - (1 + key.length + value.length) + 1 + key.length := by rw [hio]
    rw [← hsame]
    exact readBytes_writeBytes hvb
  exact ⟨hE, hD1, hD2, hD3, hA, hB, hC1, hC2, hC3⟩

theorem wf_O_le_offs (p : PageBytes) (hwf : WfPage p) :
    ∀ j, j < get_n_items p → PAGE_SIZE - get_size p ≤ get_offs p j := by
  intro j hj
  rw [wf_origin hwf (by omega)]
  exact wf_mono hwf (get_n_items p - 1) (by omega) j (by omega)

theorem wf_bnd_le_offs (p : PageBytes) (hwf : WfPage p) {ip j : Nat}
    (hip : ip ≤ get_n_items p) (hj : j < ip) : bnd p ip ≤ get_offs p j := by
  have hip0 : ip ≠ 0 := by omega
  simp only [bnd, if_neg hip0]
  exact wf_mono hwf (ip - 1) (by omega) j (by omega)

theorem wf_bnd_mono (p : PageBytes) (hwf : WfPage p) {ip j : Nat}
    (h1 : ip ≤ j) (hj : j < get_n_items p) : bnd p j ≤ bnd p ip := by
  by_cases hip0 : ip = 0
  · rw [show bnd p ip = PAGE_SIZE from by simp [bnd, hip0]]
    by_cases hj0 : j = 0
    · simp [bnd, hj0]
    · simp only [bnd, if_neg hj0]
      exact le_of_lt (wf_lt_page hwf (j - 1) (by omega))
  · have hj0 : j ≠ 0 := by omega
    simp only [bnd, if_neg hj0, if_neg hip0]
    exact wf_mono hwf (j - 1) (by omega) (ip - 1) (by omega)

/-- C10: on a well-formed slotted page, a successful insert_item(ip, key,
value) increments get_n_items by one, get_item(ip) afterwards returns
exactly (key, value), items formerly below ip keep index and contents,
items formerly at indices >= ip reappear unchanged at index + 1; a failed
insert_item leaves the page bytes unchanged. -/
theorem C10_insert_item_spec (p : PageBytes) (ip : Nat) (key value : List Nat)
    (hwf : WfPage p) (hip : ip ≤ get_n_items p) (hk : key.length < 256)
    (hkb : ∀ b ∈ key, b < 256) (hvb : ∀ b ∈ value, b < 256) :
    ((insert_item p ip key value).2 = true →
      get_n_items (insert_item p ip key value).1 = get_n_items p + 1 ∧
      get_item (insert_item p ip key value).1 ip = (key, value) ∧
      (∀ j, j < ip →
        get_item (insert_item p ip key value).1 j = get_item p j) ∧
      (∀ j, ip ≤ j → j < get_n_items p →
        get_item (insert_item p ip key value).1 (j + 1) = get_item p j)) ∧
    ((insert_item p ip key value).2 = false →
      (insert_item p ip key value).1 = p) := by
  by_cases hfit : (get_n_items p + 1) * 2 + get_size p
      + (1 + key.length + value.length) ≤ PAGE_SIZE - PAGE_HEADER_SIZE
  case neg =>
    rw [insert_item_false p ip key value hfit]
    exact ⟨fun h => by simp at h, fun _ => rfl⟩
  case pos =>
  rw [insert_item_eq p ip key value hfit]
  obtain ⟨hE, hD1, hD2, hD3, hA, hB, hC1, hC2, hC3⟩ :=
    insFinal_spec p ip key value hwf hip hk hkb hvb hfit
  have hps : PAGE_SIZE = 8192 := rfl
  have hph : PAGE_HEADER_SIZE = 2 := rfl
  have hsize_le : get_size p ≤ PAGE_SIZE := by
    by_cases h0 : get_n_items p = 0
    · simp [get_size, h0, hps]
    · simp only [get_size, if_neg h0]
      omega
  have hO : 2 + 2 * get_n_items p + 2 + (1 + key.length + value.length)
      ≤ PAGE_SIZE - get_size p := by omega
  refine ⟨fun _ => ⟨hE, ?_, ?_, ?_⟩, fun hf => by simp at hf⟩
  · -- the new item at slot ip
    have hObnd : PAGE_SIZE - get_size p ≤ bnd p ip := by
      by_cases h0 : get_n_items p = 0
      · have hip0 : ip = 0 := by omega
        simp [bnd, hip0, get_size, h0]
      · rw [wf_origin hwf h0]
        by_cases hip0 : ip = 0
        · simp only [bnd, if_pos hip0]
          exact le_of_lt (wf_lt_page hwf _ (by omega))
        · simp only [bnd, if_neg hip0]
          exact wf_mono hwf (get_n_items p - 1) (by omega) (ip - 1) (by omega)
    have hbip : (if ip = 0 then PAGE_SIZE
        else get_offs (insFinal p ip key value) (ip - 1)) = bnd p ip := by
      by_cases hip0 : ip = 0
      · simp [hip0, bnd]
      · rw [if_neg hip0, hD1 (ip - 1) (by omega)]
        simp [bnd, hip0]
    simp only [get_item, get_item_offs_len]
    rw [hD2, hbip, hC1]
    have hlen : bnd p ip - (bnd p ip - (1 + key.length + value.length))
        - 1 - key.length = value.length := by omega
    rw [hlen, hC2, hC3]
  · -- items below ip
    intro j hj
    have hge : bnd p ip ≤ get_offs p j := wf_bnd_le_offs p hwf hip hj
    have hbout : (if j = 0 then PAGE_SIZE
        else get_offs (insFinal p ip key value) (j - 1)) =
        (if j = 0 then PAGE_SIZE else get_offs p (j - 1)) := by
      by_cases hj0 : j = 0
      · simp [hj0]
      · rw [if_neg hj0, if_neg hj0, hD1 (j - 1) (by omega)]
    simp only [get_item, get_item_offs_len]
    rw [hD1 j hj, hbout, hA _ (by omega)]
    refine congrArg₂ Prod.mk ?_ ?_
    · exact readBytes_congr (fun x h1 h2 => hA x (by omega))
    · exact readBytes_congr (fun x h1 h2 => hA x (by omega))
  · -- items at or above ip, shifted up by one slot
    intro j hj1 hj2
    have hOoffs : PAGE_SIZE - get_size p ≤ get_offs p j := wf_O_le_offs p hwf j hj2
    have hdesc : get_offs p j < bnd p j := hwf.desc j hj2
    have hkf : 1 + p (get_offs p j) ≤ bnd p j - get_offs p j := hwf.keyfit j hj2
    have hbndm : bnd p j ≤ bnd p ip := wf_bnd_mono p hwf hj1 hj2
    have hoffs : get_offs (insFinal p ip key value) (j + 1)
        = get_offs p j - (1 + key.length + value.length) := by
      have h := hD3 (j + 1) (by omega) (by omega)
      rwa [Nat.add_sub_cancel] at h
    have hbq : get_offs (insFinal p ip key value) j
        = bnd p j - (1 + key.length + value.length) := by
      rcases Nat.eq_or_lt_of_le hj1 with he | hlt
      · subst he
        exact hD2
      · rw [hD3 j hlt (by omega)]
        simp [bnd, show ¬(j = 0) by omega]
    have hkl : insFinal p ip key value
        (get_offs p j - (1 + key.length + value.length)) = p (get_offs p j) := by
      rw [hB _ (by omega) (by omega)]
      congr 1
      omega
    have hkey : readBytes (insFinal p ip key value)
        (get_offs p j - (1 + key.length + value.length) + 1) (p (get_offs p j))
        = readBytes p (get_offs p j + 1) (p (get_offs p j)) := by
      have h := @readBytes_shift (insFinal p ip key value) p
        (get_offs p j - (1 + key.length + value.length) + 1)
        (1 + key.length + value.length) (p (get_offs p j))
        (fun x h1 h2 => hB x (by omega) (by omega))
      rwa [show get_offs p j - (1 + key.length + value.length) + 1
        + (1 + key.length + value.length) = get_offs p j + 1 by omega] at h
    have hval : readBytes (insFinal p ip key value)
        (get_offs p j - (1 + key.length + value.length) + 1 + p (get_offs p j))
        (bnd p j - get_offs p j - 1 - p (get_offs p j))
        = readBytes p (get_offs p j + 1 + p (get_offs p j))
          (bnd p j - get_offs p j - 1 - p (get_offs p j)) := by
      have h := @readBytes_shift (insFinal p ip key value) p
        (get_offs p j - (1 + key.length + value.length) + 1 + p (get_offs p j))
        (1 + key.length + value.length)
        (bnd p j - get_offs p j - 1 - p (get_offs p j))
        (fun x h1 h2 => hB x (by omega) (by omega))
      rwa [show get_offs p j - (1 + key.length + value.length) + 1 + p (get_offs p j)
        + (1 + key.length + value.length) = get_offs p j + 1 + p (get_offs p j) by omega] at h
    simp only [get_item, get_item_offs_len, Nat.add_sub_cancel]
    rw [if_neg (by omega : ¬(j + 1 = 0)), hoffs, hbq, hkl]
    rw [show (if j = 0 then PAGE_SIZE else get_offs p (j - 1)) = bnd p j from rfl]
    have hlen : bnd p j - (1 + key.length + value.length)
        - (get_offs p j - (1 + key.length + value.length))
        = bnd p j - get_offs p j := by omega
    rw [hlen]
    refine congrArg₂ Prod.mk ?_ ?_
    · exact hkey
    · exact hval

/-- Witness for C10 at the empty page: inserting key [1], value [2] at slot 0
succeeds, bumps the item count to 1 and get_item 0 returns the pair. -/
theorem C10_insert_item_witness :
    (insert_item zeroPage 0 [1] [2]).2 = true ∧
    get_n_items (insert_item zeroPage 0 [1] [2]).1 = get_n_items zeroPage + 1 ∧
    get_item (insert_item zeroPage 0 [1] [2]).1 0 = ([1], [2]) := by
  have hwf : WfPage zeroPage :=
    ⟨fun x => by simp [zeroPage],
     fun j hj => by simp [get_n_items, get_u16, zeroPage] at hj,
     fun j hj => by simp [get_n_items, get_u16, zeroPage] at hj⟩
  have htrue : (insert_item zeroPage 0 [1] [2]).2 = true := by decide
  obtain ⟨h1, h2, -, -⟩ := (C10_insert_item_spec zeroPage 0 [1] [2] hwf
    (by decide) (by decide) (by decide) (by decide)).1 htrue
  exact ⟨htrue, h1, h2⟩

/-! ## The B-tree layer of store.rs over the transaction's page view

TreeSt carries the Database metadata and the merged page view: get_page(pid)
yields pages pid (pool pages and file pages agree for the transaction).
Buffer pinning and WAL bookkeeping (modify_page) have no effect on this
view and are not represented; the only errors modelled are the ensure!
failures of the tree code itself, as Option (none = Err).  Fuelled
recursion uses the height argument, exactly as the source recursion does
(a call with height 0 in a non-leaf position is modelled as an error; the
source would underflow height - 1 there). -/

structure TreeSt where
  meta : Metadata
  meta_updated : Bool
  pages : Nat → PageBytes

/-- new_page of store.rs: take the head of the free-page list, or extend the
store; either way the page is zero-filled and meta_updated is set. -/
def TreeSt.new_page (s : TreeSt) : TreeSt × Nat :=
  if s.meta.free ≠ 0 then
    let pid := s.meta.free
    ({ s with
        meta := { s.meta with free := get_u32 (s.pages pid) 0 },
        pages := fun i => if i = pid then zeroPage else s.pages i,
        meta_updated := true }, pid)
  else
    let pid := s.meta.size
    ({ s with
        meta := { s.meta with size := s.meta.size + 1 },
        pages := fun i => if i = pid then zeroPage else s.pages i,
        meta_updated := true }, pid)

/-- btree_insert_in_page of store.rs: plain insert if the item fits,
otherwise allocate a page, split, re-insert into the proper half (the
ensure!(ok) failure is none) and return the new page's last key and pid. -/
def btree_insert_in_page (s : TreeSt) (pid ip : Nat) (key value : List Nat) :
    Option (TreeSt × Option (List Nat × Nat)) :=
  let r0 := insert_item (s.pages pid) ip key value
  if r0.2 then
    some ({ s with pages := fun i => if i = pid then r0.1 else s.pages i }, none)
  else
    let np := s.new_page
    let s1 := np.1
    let newPid := np.2
    let sp := split (s1.pages pid) (s1.pages newPid) ip
    let res :=
      if ip > sp.2.2 then
        let rr := insert_item sp.1 (ip - sp.2.2 - 1) key value
        (rr.1, sp.2.1, rr.2)
      else
        let rr := insert_item sp.2.1 ip key value
        (sp.1, rr.1, rr.2)
    if res.2.2 then
      some ({ s1 with pages := fun i =>
                if i = pid then res.1
                else if i = newPid then res.2.1
                else s1.pages i },
            some (get_last_key res.2.1, newPid))
    else none

/-- The binary search shared by btree_insert / btree_remove / find. -/
def searchPos (page : PageBytes) (key : List Nat) : Nat :=
  lowBound (fun m => decide (compare_key page m key = Ordering.gt)) 0
    (get_n_items page)

/-- btree_insert of store.rs, recursing on height. -/
def btree_insert (key value : List Nat) :
    Nat → TreeSt → Nat → Option (TreeSt × Option (List Nat × Nat))
  | 0, _, _ => none
  | height + 1, s, pid =>
    let page := s.pages pid
    let n := get_n_items page
    let r := searchPos page key
    if height = 0 then
      let page1 :=
        if r < n ∧ compare_key page r key = Ordering.eq then
          remove_key page r true
        else page
      let s1 := { s with pages := fun i => if i = pid then page1 else s.pages i }
      btree_insert_in_page s1 pid r key value
    else
      match btree_insert key value height s (get_child page r) with
      | none => none
      | some (s1, none) => some (s1, none)
      | some (s1, some kc) =>
        btree_insert_in_page s1 pid r kc.1 (u32Bytes kc.2)

/-- btree_remove of store.rs, recursing on height. -/
def btree_remove (key : List Nat) :
    Nat → TreeSt → Nat → Option (TreeSt × Bool)
  | 0, _, _ => none
  | height + 1, s, pid =>
    let page := s.pages pid
    let n := get_n_items page
    let r := searchPos page key
    let after : TreeSt → Option (TreeSt × Bool) := fun s2 =>
      if get_n_items (s2.pages pid) = 0 then
        let pg := set_u32 (s2.pages pid) 0 s2.meta.free
        some ({ s2 with
                  pages := fun i => if i = pid then pg else s2.pages i,
                  meta := { s2.meta with free := pid },
                  meta_updated := true }, true)
      else some (s2, false)
    if height = 0 then
      let page1 :=
        if r < n ∧ compare_key page r key = Ordering.eq then
          remove_key page r true
        else page
      after { s with pages := fun i => if i = pid then page1 else s.pages i }
    else
      match btree_remove key height s (get_child page r) with
      | none => none
      | some (s1, underflow) =>
        let page1 :=
          if underflow then remove_key (s1.pages pid) r false else s1.pages pid
        after { s1 with pages := fun i => if i = pid then page1 else s1.pages i }

/-- The scan over positions r..n-1 of find's non-leaf branch: the first
child in which the key is found wins; child errors propagate. -/
def scanChildren (f : Nat → Option (Option (List Nat))) (page : PageBytes) :
    List Nat → Option (Option (List Nat))
  | [] => some none
  | r :: rest =>
    match f (get_child page r) with
    | none => none
    | some (some v) => some (some v)
    | some none => scanChildren f page rest

/-- find of store.rs, recursing on height. -/
def find (key : List Nat) : Nat → TreeSt → Nat → Option (Option (List Nat))
  | 0, _, _ => none
  | height + 1, s, pid =>
    let page := s.pages pid
    let n := get_n_items page
    let r := searchPos page key
    if height = 0 then
      if r < n then
        let item := get_item page r
        if item.1 = key then some (some item.2) else some none
      else some none
    else
      scanChildren (fun child => find key height s child) page
        (List.range' r (n - r))

/-- do_upsert of store.rs (Transaction.put). -/
def do_upsert (s : TreeSt) (key value : List Nat) : Option TreeSt :=
  if key.length ≠ 0 ∧ key.length ≤ MAX_KEY_LEN ∧ value.length ≤ MAX_VALUE_LEN then
    if s.meta.root = 0 then
      -- btree_allocate_leaf_page
      let np := s.new_page
      let pid := np.2
      let s1 := np.1
      let pg := set_n_items (s1.pages pid) 0
      let pg := (insert_item pg 0 key value).1
      some { s1 with
              pages := fun i => if i = pid then pg else s1.pages i,
              meta := { s1.meta with root := pid, height := 1 },
              meta_updated := true }
    else
      match btree_insert key value s.meta.height s s.meta.root with
      | none => none
      | some (s1, none) => some s1
      | some (s1, some kc) =>
        -- btree_allocate_internal_page
        let np := s1.new_page
        let pid := np.2
        let s2 := np.1
        let pg := set_n_items (s2.pages pid) 0
        let pg := (insert_item pg 0 kc.1 (u32Bytes kc.2)).1
        let pg := (insert_item pg 1 [] (u32Bytes s2.meta.root)).1
        some { s2 with
                pages := fun i => if i = pid then pg else s2.pages i,
                meta := { s2.meta with root := pid, height := s2.meta.height + 1 },
                meta_updated := true }
  else none

/-- do_remove of store.rs (Transaction.remove). -/
def do_remove (s : TreeSt) (key : List Nat) : Option TreeSt :=
  if s.meta.root ≠ 0 then
    match btree_remove key s.meta.height s s.meta.root with
    | none => none
    | some (s1, underflow) =>
      if underflow then
        some { s1 with
                meta := { s1.meta with root := 0, height := 0 },
                meta_updated := true }
      else some s1
  else some s

/-- get of store.rs: find from the root at the meta height. -/
def TreeSt.get (s : TreeSt) (key : List Nat) : Option (Option (List Nat)) :=
  find key s.meta.height s s.meta.root

/-- The state of a freshly created store file (Store::open's new-file
branch): meta (free 0, size 1, root 0, height 0) and zeroed pages; page 0
holds the packed metadata. -/
def freshStore : TreeSt :=
  { meta := { free := 0, size := 1, root := 0, height := 0 },
    meta_updated := false,
    pages := fun i => if i = 0 then
        writeBytes zeroPage 0 (Metadata.pack { free := 0, size := 1, root := 0, height := 0 })
      else zeroPage }

/-- Store states reachable from a fresh store by successful upserts. -/
inductive UpsertReach : TreeSt → Prop
  | init : UpsertReach freshStore
  | step (s s' : TreeSt) (key value : List Nat) :
      UpsertReach s → do_upsert s key value = some s' → UpsertReach s'

/-! ## C9: a valid-sized upsert that do_upsert rejects on a reachable store

do_upsert_empty and do_upsert_leaf characterize do_upsert's two simple
paths symbolically; the concrete states c9St1..c9St4 then realize four
successful upserts from the fresh store, and the fifth, size-valid upsert
fails in the split re-insert. -/
/-- do_upsert on an empty tree (root 0) with an empty free list: allocate
the leaf at pid meta.size and install it as root. -/
theorem do_upsert_empty (s : TreeSt) (key value : List Nat)
    (hk : key.length ≠ 0 ∧ key.length ≤ MAX_KEY_LEN ∧ value.length ≤ MAX_VALUE_LEN)
    (hroot : s.meta.root = 0) (hfree : s.meta.free = 0) :
    do_upsert s key value = some
      { meta := { free := s.meta.free, size := s.meta.size + 1,
                  root := s.meta.size, height := 1 },
        meta_updated := true,
        pages := fun i => if i = s.meta.size
          then (insert_item (set_n_items zeroPage 0) 0 key value).1
          else s.pages i } := by
  simp only [do_upsert, if_pos hk, if_pos hroot, TreeSt.new_page]
  rw [if_neg (by simp [hfree])]
  simp
  funext i
  by_cases hi : i = s.meta.size <;> simp [hi]

/-- do_upsert on a height-1 tree when the key is not already present and
the root leaf has room: insert at the binary-search position. -/
theorem do_upsert_leaf (s : TreeSt) (key value : List Nat)
    (hk : key.length ≠ 0 ∧ key.length ≤ MAX_KEY_LEN ∧ value.length ≤ MAX_VALUE_LEN)
    (hroot : s.meta.root ≠ 0) (hh : s.meta.height = 1)
    (hne : ¬(searchPos (s.pages s.meta.root) key < get_n_items (s.pages s.meta.root) ∧
        compare_key (s.pages s.meta.root) (searchPos (s.pages s.meta.root) key) key
          = Ordering.eq))
    (hfit : (insert_item (s.pages s.meta.root) (searchPos (s.pages s.meta.root) key)
        key value).2 = true) :
    do_upsert s key value = some
      { s with pages := fun i => if i = s.meta.root
          then (insert_item (s.pages s.meta.root)
            (searchPos (s.pages s.meta.root) key) key value).1
          else s.pages i } := by
  simp only [do_upsert, if_pos hk, if_neg hroot, hh]
  simp only [btree_insert, if_neg hne]
  simp only [btree_insert_in_page]
  simp only [eq_self_iff_true, if_true]
  simp only [hfit]
  simp
  funext i
  by_cases hi : i = s.meta.root <;> simp [hi]


def c9K (b : Nat) : List Nat := List.replicate 255 b
def c9V (n : Nat) : List Nat := List.replicate n 0

def c9Page1 : PageBytes := (insert_item (set_n_items zeroPage 0) 0 (c9K 1) (c9V 1532)).1
def c9St1 : TreeSt :=
  { meta := { free := 0, size := 2, root := 1, height := 1 },
    meta_updated := true,
    pages := fun i => if i = 1 then c9Page1 else freshStore.pages i }

def c9Page2 : PageBytes :=
  (insert_item c9Page1 (searchPos c9Page1 (c9K 2)) (c9K 2) (c9V 1532)).1
def c9St2 : TreeSt :=
  { meta := { free := 0, size := 2, root := 1, height := 1 },
    meta_updated := true,
    pages := fun i => if i = 1 then c9Page2 else c9St1.pages i }

def c9Page3 : PageBytes :=
  (insert_item c9Page2 (searchPos c9Page2 (c9K 3)) (c9K 3) (c9V 2048)).1
def c9St3 : TreeSt :=
  { meta := { free := 0, size := 2, root := 1, height := 1 },
    meta_updated := true,
    pages := fun i => if i = 1 then c9Page3 else c9St2.pages i }

def c9Page4 : PageBytes :=
  (insert_item c9Page3 (searchPos c9Page3 (c9K 4)) (c9K 4) (c9V 1022)).1
def c9St4 : TreeSt :=
  { meta := { free := 0, size := 2, root := 1, height := 1 },
    meta_updated := true,
    pages := fun i => if i = 1 then c9Page4 else c9St3.pages i }

theorem c9step1 : do_upsert freshStore (c9K 1) (c9V 1532) = some c9St1 := by
  rw [do_upsert_empty freshStore (c9K 1) (c9V 1532)
    (by simp [c9K, c9V, MAX_KEY_LEN, MAX_VALUE_LEN, PAGE_SIZE]) rfl rfl]
  rfl

theorem c9step2 : do_upsert c9St1 (c9K 2) (c9V 1532) = some c9St2 := by
  rw [do_upsert_leaf c9St1 (c9K 2) (c9V 1532)
    (by simp [c9K, c9V, MAX_KEY_LEN, MAX_VALUE_LEN, PAGE_SIZE]) (by decide) rfl
    (by decide) (by decide)]
  rfl



theorem treeSt_mk_eq {m1 m2 : Metadata} {b1 b2 : Bool} {p1 p2 : Nat → PageBytes}
    (hm : m1 = m2) (hb : b1 = b2) (hp : ∀ i, p1 i = p2 i) :
    TreeSt.mk m1 b1 p1 = TreeSt.mk m2 b2 p2 := by
  cases hm
  cases hb
  exact congrArg (TreeSt.mk m1 b1) (funext hp)

theorem c9step3 : do_upsert c9St2 (c9K 3) (c9V 2048) = some c9St3 := by
  refine Eq.trans (do_upsert_leaf c9St2 (c9K 3) (c9V 2048)
    (by simp [c9K, c9V, MAX_KEY_LEN, MAX_VALUE_LEN, PAGE_SIZE]) (by decide)
    rfl (by decide) (by decide)) (congrArg some ?_)
  refine treeSt_mk_eq rfl rfl (fun i => ?_)
  rw [show c9St2.pages c9St2.meta.root = c9Page2 from rfl,
      show c9St2.meta.root = 1 from rfl,
      show (insert_item c9Page2 (searchPos c9Page2 (c9K 3)) (c9K 3) (c9V 2048)).1
        = c9Page3 from rfl]

theorem c9step4 : do_upsert c9St3 (c9K 4) (c9V 1022) = some c9St4 := by
  refine Eq.trans (do_upsert_leaf c9St3 (c9K 4) (c9V 1022)
    (by simp [c9K, c9V, MAX_KEY_LEN, MAX_VALUE_LEN, PAGE_SIZE]) (by decide)
    rfl (by decide) (by decide)) (congrArg some ?_)
  refine treeSt_mk_eq rfl rfl (fun i => ?_)
  rw [show c9St3.pages c9St3.meta.root = c9Page3 from rfl,
      show c9St3.meta.root = 1 from rfl,
      show (insert_item c9Page3 (searchPos c9Page3 (c9K 4)) (c9K 4) (c9V 1022)).1
        = c9Page4 from rfl]

theorem c9fail : do_upsert c9St4 (c9K 0) (c9V 2048) = none :=
  Option.isNone_iff_eq_none.mp (by decide)

/-- C9: a seventh-byte-valid upsert rejected on a reachable store.  From a
fresh store, four upserts (255-byte keys; values of 1532, 1532, 2048 and
1022 bytes) fill the root leaf to 7158 item bytes.  A fifth upsert with a
255-byte key sorting before all four and a 2048-byte value does not fit, the
leaf splits at position 2, and the re-insert into the new page needs
8 + 5880 + 2304 = 8192 > 8190 bytes, so btree_insert_in_page's ensure!(ok)
fails: do_upsert errors on a key and value within the documented bounds,
refuting the "if and only if". -/
theorem C9_do_upsert_error_on_valid_input :
    UpsertReach c9St4 ∧
    (c9K 0).length ≠ 0 ∧
    (c9K 0).length ≤ MAX_KEY_LEN ∧
    (c9V 2048).length ≤ MAX_VALUE_LEN ∧
    do_upsert c9St4 (c9K 0) (c9V 2048) = none := by
  refine ⟨?_, ?_, ?_, ?_, c9fail⟩
  · exact UpsertReach.step _ _ _ _ (UpsertReach.step _ _ _ _ (UpsertReach.step _ _ _ _
      (UpsertReach.step _ _ _ _ UpsertReach.init c9step1) c9step2) c9step3) c9step4
  · simp [c9K]
  · simp [c9K, MAX_KEY_LEN]
  · simp [c9V, MAX_VALUE_LEN, PAGE_SIZE]

/-! ## C3: slot order of keys in reachable B-tree pages

The spec says keys DESCEND with the slot index (slot 0 largest) in every
reachable page, with the +inf sentinel (key length 0) only as the last slot
of a right-most internal page.  Two upserts from a fresh store produce a
root leaf whose slot 0 holds [1] and slot 1 holds [2]: keys ASCEND, refuting
the direction (and the code's own consistency checker traverse demands
ascending: its leaf loop requires compare_key(i, prev_key) == Less at every
slot).  Worse, no strict order invariant holds at all: the remove_key bug of
C4 can corrupt a key length byte in a reachable root page, leaving two EQUAL
adjacent keys (theorem C3_no_strict_order_in_reachable_page below). -/

def c3Page1 : PageBytes := (insert_item (set_n_items zeroPage 0) 0 [1] [7]).1
def c3St1 : TreeSt :=
  { meta := { free := 0, size := 2, root := 1, height := 1 },
    meta_updated := true,
    pages := fun i => if i = 1 then c3Page1 else freshStore.pages i }

def c3Page2 : PageBytes :=
  (insert_item c3Page1 (searchPos c3Page1 [2]) [2] [8]).1
def c3St2 : TreeSt :=
  { meta := { free := 0, size := 2, root := 1, height := 1 },
    meta_updated := true,
    pages := fun i => if i = 1 then c3Page2 else c3St1.pages i }

theorem c3step1 : do_upsert freshStore [1] [7] = some c3St1 := by
  rw [do_upsert_empty freshStore [1] [7] (by simp [MAX_KEY_LEN, MAX_VALUE_LEN, PAGE_SIZE]) rfl rfl]
  rfl

theorem c3step2 : do_upsert c3St1 [2] [8] = some c3St2 := by
  rw [do_upsert_leaf c3St1 [2] [8] (by simp [MAX_KEY_LEN, MAX_VALUE_LEN, PAGE_SIZE])
    (by decide) rfl (by decide) (by decide)]
  rfl

/-- Counterexample to C3: after two upserts the root leaf stores the
smaller key [1] in slot 0 and the larger key [2] in slot 1 — ascending,
not descending. -/
theorem C3_descending_counterexample :
    UpsertReach c3St2 ∧
    c3St2.meta.root = 1 ∧ c3St2.meta.height = 1 ∧
    get_n_items (c3St2.pages 1) = 2 ∧
    get_key (c3St2.pages 1) 0 = [1] ∧
    get_key (c3St2.pages 1) 1 = [2] ∧
    lexCompare (get_key (c3St2.pages 1) 1) (get_key (c3St2.pages 1) 0) = Ordering.gt := by
  refine ⟨?_, rfl, rfl, by decide, by decide, by decide, by decide⟩
  exact UpsertReach.step _ _ _ _ (UpsertReach.step _ _ _ _ UpsertReach.init c3step1) c3step2

/-- The leaf loop of traverse (store.rs, height == 1): for each slot in
index order, ensure compare_key(i, prev_key) == Less (prev_key is smaller
than slot i's key, or slot i is the sentinel) and advance prev_key to slot
i's key; any violation is an error (none). -/
def traverseLeafLoop (p : PageBytes) : List Nat → List Nat → Option (List Nat)
  | prev, [] => some prev
  | prev, i :: rest =>
    if compare_key p i prev = Ordering.lt then
      traverseLeafLoop p (get_key p i) rest
    else none

theorem traverse_leaf_ascending (p : PageBytes) :
    ∀ (n k : Nat) (prev res : List Nat),
      traverseLeafLoop p prev (List.range' k n) = some res →
      ∀ i, k ≤ i → i + 1 < k + n →
        compare_key p (i + 1) (get_key p i) = Ordering.lt := by
  intro n
  induction n with
  | zero => intro k prev res h i h1 h2; omega
  | succ m ih =>
    intro k prev res h i h1 h2
    rw [List.range'_succ] at h
    simp only [traverseLeafLoop] at h
    by_cases hc : compare_key p k prev = Ordering.lt
    · rw [if_pos hc] at h
      rcases Nat.lt_or_ge i (k + 1) with hik | hik
      · have hik' : i = k := by omega
        subst hik'
        cases m with
        | zero => omega
        | succ m' =>
          rw [List.range'_succ] at h
          simp only [traverseLeafLoop] at h
          by_cases hc2 : compare_key p (i + 1) (get_key p i) = Ordering.lt
          · exact hc2
          · rw [if_neg hc2] at h; cases h
      · exact ih (k + 1) (get_key p k) res h i hik (by omega)
    · rw [if_neg hc] at h; cases h


/-! ### A reachable internal page with duplicate adjacent keys

Sixteen upserts of ascending keys (values of 1532 zero bytes) build a
height-2 tree: three leaf splits leave the root (page 3) with four slots
(keys [1,1,1,1,1], [1,1,1,1,1,1], [2,2,2,2,2] and the sentinel, children
pages 2, 4, 5 and 1).  Removing the largest key [3] empties the right-most
leaf (page 1); the underflow makes btree_remove call
remove_key(3, false) on the root, whose promote branch copies
prev_key_len + 1 = 6 bytes (the C4 bug; the sentinel needs key_len + 1 = 1)
and thereby overwrites slot 1's key length byte with 5 — truncating its key
[1,1,1,1,1,1] to [1,1,1,1,1], equal to slot 0's key.  The four lemmas
below characterize the do_upsert / do_remove paths the sequence takes;
the states c3bSt1..c3bSt17 realize it concretely. -/

/-- do_upsert on a full height-1 root leaf (key not present, free list
empty): the leaf splits (here with the insert position above the split
point, so the re-insert goes to the old page), a new root internal page is
allocated at pid size + 1 referencing the new page (pid size) and the old
root, and the height grows by one. -/
theorem do_upsert_leaf_split_grow (s : TreeSt) (key value : List Nat)
    (hk : key.length ≠ 0 ∧ key.length ≤ MAX_KEY_LEN ∧ value.length ≤ MAX_VALUE_LEN)
    (hroot : s.meta.root ≠ 0) (hh : s.meta.height = 1) (hfree : s.meta.free = 0)
    (hNR : s.meta.size ≠ s.meta.root) (hNR1 : s.meta.size + 1 ≠ s.meta.root)
    (hne : ¬(searchPos (s.pages s.meta.root) key < get_n_items (s.pages s.meta.root) ∧
        compare_key (s.pages s.meta.root) (searchPos (s.pages s.meta.root) key) key
          = Ordering.eq))
    (hfail : (insert_item (s.pages s.meta.root) (searchPos (s.pages s.meta.root) key)
        key value).2 = false)
    (hgt : (split (s.pages s.meta.root) zeroPage (searchPos (s.pages s.meta.root) key)).2.2
        < searchPos (s.pages s.meta.root) key)
    (hok : (insert_item
        (split (s.pages s.meta.root) zeroPage (searchPos (s.pages s.meta.root) key)).1
        (searchPos (s.pages s.meta.root) key
          - (split (s.pages s.meta.root) zeroPage (searchPos (s.pages s.meta.root) key)).2.2
          - 1) key value).2 = true) :
    do_upsert s key value = some
      { meta := { free := s.meta.free, size := s.meta.size + 1 + 1,
                  root := s.meta.size + 1, height := s.meta.height + 1 },
        meta_updated := true,
        pages := fun i =>
          if i = s.meta.size + 1 then
            (insert_item (insert_item (set_n_items zeroPage 0) 0
                (get_last_key (split (s.pages s.meta.root) zeroPage
                  (searchPos (s.pages s.meta.root) key)).2.1)
                (u32Bytes s.meta.size)).1 1 [] (u32Bytes s.meta.root)).1
          else if i = s.meta.root then
            (insert_item
              (split (s.pages s.meta.root) zeroPage (searchPos (s.pages s.meta.root) key)).1
              (searchPos (s.pages s.meta.root) key
                - (split (s.pages s.meta.root) zeroPage
                    (searchPos (s.pages s.meta.root) key)).2.2 - 1) key value).1
          else if i = s.meta.size then
            (split (s.pages s.meta.root) zeroPage (searchPos (s.pages s.meta.root) key)).2.1
          else s.pages i } := by
  have hfz : ¬(s.meta.free ≠ 0) := by simp [hfree]
  simp only [do_upsert, if_pos hk, if_neg hroot, hh]
  simp only [btree_insert, if_neg hne]
  simp only [btree_insert_in_page, TreeSt.new_page]
  rw [if_neg hfz]
  simp only [eq_self_iff_true, if_true, if_pos rfl]
  simp only [hfail, Bool.false_eq_true, if_false]
  rw [if_neg (Ne.symm hNR)]
  rw [if_pos hgt]
  simp only [hok, if_true]
  rw [if_neg hfz]
  simp only [eq_self_iff_true, if_true, if_pos rfl]
  refine congrArg some ?_
  refine treeSt_mk_eq ?_ rfl (fun i => ?_)
  · rw [hh]
  · by_cases h1 : i = s.meta.size + 1
    · simp [h1, hNR1, (by omega : s.meta.size + 1 ≠ s.meta.size)]
    · by_cases h2 : i = s.meta.root
      · simp [h1, h2, Ne.symm hNR, Ne.symm hNR1]
      · by_cases h3 : i = s.meta.size
        · simp [h1, h2, h3]
        · simp [h1, h2, h3]

/-- do_upsert on a height-2 tree descending into child c whose leaf has
room (key not present): only the leaf page changes. -/
theorem do_upsert_internal (s : TreeSt) (key value : List Nat) (c : Nat)
    (hk : key.length ≠ 0 ∧ key.length ≤ MAX_KEY_LEN ∧ value.length ≤ MAX_VALUE_LEN)
    (hroot : s.meta.root ≠ 0) (hh : s.meta.height = 2)
    (hc : get_child (s.pages s.meta.root) (searchPos (s.pages s.meta.root) key) = c)
    (hne : ¬(searchPos (s.pages c) key < get_n_items (s.pages c) ∧
        compare_key (s.pages c) (searchPos (s.pages c) key) key = Ordering.eq))
    (hfit : (insert_item (s.pages c) (searchPos (s.pages c) key) key value).2 = true) :
    do_upsert s key value = some
      { s with pages := fun i => if i = c then
          (insert_item (s.pages c) (searchPos (s.pages c) key) key value).1
          else s.pages i } := by
  simp only [do_upsert, if_pos hk, if_neg hroot, hh]
  simp only [btree_insert, hc, if_neg hne]
  simp only [btree_insert_in_page]
  simp only [eq_self_iff_true, if_true, if_pos rfl]
  simp only [hfit, if_true]
  simp
  funext i
  by_cases hi : i = c <;> simp [hi]

/-- do_upsert on a height-2 tree descending into a full leaf c: the leaf
splits into a new page at pid size, and the separator (the new page's last
key with the new pid) is inserted into the root, which has room. -/
theorem do_upsert_internal_split (s : TreeSt) (key value : List Nat) (c : Nat)
    (hk : key.length ≠ 0 ∧ key.length ≤ MAX_KEY_LEN ∧ value.length ≤ MAX_VALUE_LEN)
    (hroot : s.meta.root ≠ 0) (hh : s.meta.height = 2) (hfree : s.meta.free = 0)
    (hc : get_child (s.pages s.meta.root) (searchPos (s.pages s.meta.root) key) = c)
    (hcr : c ≠ s.meta.root) (hsc : s.meta.size ≠ c) (hsr : s.meta.size ≠ s.meta.root)
    (hne : ¬(searchPos (s.pages c) key < get_n_items (s.pages c) ∧
        compare_key (s.pages c) (searchPos (s.pages c) key) key = Ordering.eq))
    (hfail : (insert_item (s.pages c) (searchPos (s.pages c) key) key value).2 = false)
    (hgt : (split (s.pages c) zeroPage (searchPos (s.pages c) key)).2.2
        < searchPos (s.pages c) key)
    (hok : (insert_item (split (s.pages c) zeroPage (searchPos (s.pages c) key)).1
        (searchPos (s.pages c) key
          - (split (s.pages c) zeroPage (searchPos (s.pages c) key)).2.2 - 1)
        key value).2 = true)
    (hpfit : (insert_item (s.pages s.meta.root) (searchPos (s.pages s.meta.root) key)
        (get_last_key (split (s.pages c) zeroPage (searchPos (s.pages c) key)).2.1)
        (u32Bytes s.meta.size)).2 = true) :
    do_upsert s key value = some
      { meta := { free := s.meta.free, size := s.meta.size + 1,
                  root := s.meta.root, height := s.meta.height },
        meta_updated := true,
        pages := fun i =>
          if i = s.meta.root then
            (insert_item (s.pages s.meta.root) (searchPos (s.pages s.meta.root) key)
              (get_last_key (split (s.pages c) zeroPage (searchPos (s.pages c) key)).2.1)
              (u32Bytes s.meta.size)).1
          else if i = c then
            (insert_item (split (s.pages c) zeroPage (searchPos (s.pages c) key)).1
              (searchPos (s.pages c) key
                - (split (s.pages c) zeroPage (searchPos (s.pages c) key)).2.2 - 1)
              key value).1
          else if i = s.meta.size then
            (split (s.pages c) zeroPage (searchPos (s.pages c) key)).2.1
          else s.pages i } := by
  have hfz : ¬(s.meta.free ≠ 0) := by simp [hfree]
  simp only [do_upsert, if_pos hk, if_neg hroot, hh]
  simp only [btree_insert, hc]
  rw [if_neg (show ¬((1 : Nat) = 0) from by decide)]
  simp only [eq_self_iff_true, if_true, if_pos rfl]
  simp only [if_neg hne]
  simp only [btree_insert_in_page, TreeSt.new_page]
  rw [if_neg hfz]
  simp only [eq_self_iff_true, if_true, if_pos rfl]
  simp only [hfail, Bool.false_eq_true, if_false]
  rw [if_neg (Ne.symm hsc)]
  rw [if_pos hgt]
  simp only [hok, if_true]
  rw [if_neg (Ne.symm hcr), if_neg (Ne.symm hsr)]
  simp only [if_neg (Ne.symm hcr), if_neg (Ne.symm hsr)]
  simp only [hpfit, if_true]
  refine congrArg some ?_
  refine treeSt_mk_eq ?_ rfl (fun i => ?_)
  · rw [hh]
  · by_cases h1 : i = s.meta.root
    · simp [h1, Ne.symm hcr, hsr]
    · by_cases h2 : i = c
      · simp [h1, h2, hsc]
      · by_cases h3 : i = s.meta.size
        · simp [h1, h2, h3]
        · simp [h1, h2, h3]

/-- do_remove on a height-2 tree: the key is the only item of leaf c, so
the leaf empties and is freed (its first 4 bytes overwritten with the old
free-list head), and the underflow removes slot r from the root with
remove_key(r, false) — the promote branch when r is the last slot. -/
theorem do_remove_underflow_promote (s : TreeSt) (key : List Nat) (c : Nat)
    (hroot : s.meta.root ≠ 0) (hh : s.meta.height = 2)
    (hc : get_child (s.pages s.meta.root) (searchPos (s.pages s.meta.root) key) = c)
    (hcr : c ≠ s.meta.root)
    (hhit : searchPos (s.pages c) key < get_n_items (s.pages c) ∧
        compare_key (s.pages c) (searchPos (s.pages c) key) key = Ordering.eq)
    (hzero : get_n_items (remove_key (s.pages c) (searchPos (s.pages c) key) true) = 0)
    (hnz : ¬(get_n_items (remove_key (s.pages s.meta.root)
        (searchPos (s.pages s.meta.root) key) false) = 0)) :
    do_remove s key = some
      { meta := { free := c, size := s.meta.size,
                  root := s.meta.root, height := s.meta.height },
        meta_updated := true,
        pages := fun i =>
          if i = s.meta.root then
            remove_key (s.pages s.meta.root) (searchPos (s.pages s.meta.root) key) false
          else if i = c then
            set_u32 (remove_key (s.pages c) (searchPos (s.pages c) key) true) 0 s.meta.free
          else s.pages i } := by
  simp only [do_remove, if_pos hroot, hh]
  simp only [btree_remove, hc]
  rw [if_neg (show ¬((1 : Nat) = 0) from by decide)]
  simp only [eq_self_iff_true, if_true, if_pos rfl]
  simp only [if_pos hhit]
  simp only [hzero, eq_self_iff_true, if_true, if_pos rfl]
  rw [if_neg (Ne.symm hcr)]
  simp only [if_neg (Ne.symm hcr)]
  rw [if_neg hnz]
  simp only [Bool.false_eq_true, if_false]
  refine congrArg some ?_
  refine treeSt_mk_eq ?_ rfl (fun i => ?_)
  · rw [hh]
  · by_cases h1 : i = s.meta.root
    · simp [h1, Ne.symm hcr]
    · by_cases h2 : i = c
      · simp [h1, h2]
      · simp [h1, h2]

def c3bV : List Nat := List.replicate 1532 0

def c3bK : Nat → List Nat
  | 1 => [0]
  | 2 => [0, 1]
  | 3 => [1]
  | 4 => [1, 1]
  | 5 => [1, 1, 1, 1, 1]
  | 6 => [1, 1, 1, 1, 1, 0]
  | 7 => [1, 1, 1, 1, 1, 0, 0]
  | 8 => [1, 1, 1, 1, 1, 0, 1]
  | 9 => [1, 1, 1, 1, 1, 0, 2]
  | 10 => [1, 1, 1, 1, 1, 1]
  | 11 => [1, 2]
  | 12 => [1, 3]
  | 13 => [2]
  | 14 => [2, 1]
  | 15 => [2, 2, 2, 2, 2]
  | _ => [3]


def c3bP1a : PageBytes := (insert_item (set_n_items zeroPage 0) 0 (c3bK 1) c3bV).1
def c3bSt1 : TreeSt :=
  { meta := { free := 0, size := 2, root := 1, height := 1 },
    meta_updated := true,
    pages := fun i => if i = 1 then c3bP1a else freshStore.pages i }

def c3bP1b : PageBytes := (insert_item c3bP1a (searchPos c3bP1a (c3bK 2)) (c3bK 2) c3bV).1
def c3bSt2 : TreeSt :=
  { meta := { free := 0, size := 2, root := 1, height := 1 },
    meta_updated := true,
    pages := fun i => if i = 1 then c3bP1b else c3bSt1.pages i }

def c3bP1c : PageBytes := (insert_item c3bP1b (searchPos c3bP1b (c3bK 3)) (c3bK 3) c3bV).1
def c3bSt3 : TreeSt :=
  { meta := { free := 0, size := 2, root := 1, height := 1 },
    meta_updated := true,
    pages := fun i => if i = 1 then c3bP1c else c3bSt2.pages i }

def c3bP1d : PageBytes := (insert_item c3bP1c (searchPos c3bP1c (c3bK 4)) (c3bK 4) c3bV).1
def c3bSt4 : TreeSt :=
  { meta := { free := 0, size := 2, root := 1, height := 1 },
    meta_updated := true,
    pages := fun i => if i = 1 then c3bP1d else c3bSt3.pages i }

def c3bP1e : PageBytes := (insert_item c3bP1d (searchPos c3bP1d (c3bK 5)) (c3bK 5) c3bV).1
def c3bSt5 : TreeSt :=
  { meta := { free := 0, size := 2, root := 1, height := 1 },
    meta_updated := true,
    pages := fun i => if i = 1 then c3bP1e else c3bSt4.pages i }

theorem c3bstep1 : do_upsert freshStore (c3bK 1) c3bV = some c3bSt1 := by
  rw [do_upsert_empty freshStore (c3bK 1) c3bV
    (by simp [c3bK, c3bV, MAX_KEY_LEN, MAX_VALUE_LEN, PAGE_SIZE]) rfl rfl]
  rfl

theorem c3bstep2 : do_upsert c3bSt1 (c3bK 2) c3bV = some c3bSt2 := by
  refine Eq.trans (do_upsert_leaf c3bSt1 (c3bK 2) c3bV
    (by simp [c3bK, c3bV, MAX_KEY_LEN, MAX_VALUE_LEN, PAGE_SIZE]) (by decide)
    rfl (by decide) (by decide)) (congrArg some ?_)
  refine treeSt_mk_eq rfl rfl (fun i => ?_)
  rw [show c3bSt1.pages c3bSt1.meta.root = c3bP1a from rfl,
      show c3bSt1.meta.root = 1 from rfl,
      show (insert_item c3bP1a (searchPos c3bP1a (c3bK 2)) (c3bK 2) c3bV).1 = c3bP1b from rfl]

theorem c3bstep3 : do_upsert c3bSt2 (c3bK 3) c3bV = some c3bSt3 := by
  refine Eq.trans (do_upsert_leaf c3bSt2 (c3bK 3) c3bV
    (by simp [c3bK, c3bV, MAX_KEY_LEN, MAX_VALUE_LEN, PAGE_SIZE]) (by decide)
    rfl (by decide) (by decide)) (congrArg some ?_)
  refine treeSt_mk_eq rfl rfl (fun i => ?_)
  rw [show c3bSt2.pages c3bSt2.meta.root = c3bP1b from rfl,
      show c3bSt2.meta.root = 1 from rfl,
      show (insert_item c3bP1b (searchPos c3bP1b (c3bK 3)) (c3bK 3) c3bV).1 = c3bP1c from rfl]

theorem c3bstep4 : do_upsert c3bSt3 (c3bK 4) c3bV = some c3bSt4 := by
  refine Eq.trans (do_upsert_leaf c3bSt3 (c3bK 4) c3bV
    (by simp [c3bK, c3bV, MAX_KEY_LEN, MAX_VALUE_LEN, PAGE_SIZE]) (by decide)
    rfl (by decide) (by decide)) (congrArg some ?_)
  refine treeSt_mk_eq rfl rfl (fun i => ?_)
  rw [show c3bSt3.pages c3bSt3.meta.root = c3bP1c from rfl,
      show c3bSt3.meta.root = 1 from rfl,
      show (insert_item c3bP1c (searchPos c3bP1c (c3bK 4)) (c3bK 4) c3bV).1 = c3bP1d from rfl]

theorem c3bstep5 : do_upsert c3bSt4 (c3bK 5) c3bV = some c3bSt5 := by
  refine Eq.trans (do_upsert_leaf c3bSt4 (c3bK 5) c3bV
    (by simp [c3bK, c3bV, MAX_KEY_LEN, MAX_VALUE_LEN, PAGE_SIZE]) (by decide)
    rfl (by decide) (by decide)) (congrArg some ?_)
  refine treeSt_mk_eq rfl rfl (fun i => ?_)
  rw [show c3bSt4.pages c3bSt4.meta.root = c3bP1d from rfl,
      show c3bSt4.meta.root = 1 from rfl,
      show (insert_item c3bP1d (searchPos c3bP1d (c3bK 5)) (c3bK 5) c3bV).1 = c3bP1e from rfl]

def c3bP2 : PageBytes := (split c3bP1e zeroPage (searchPos c3bP1e (c3bK 6))).2.1
def c3bP1f : PageBytes :=
  (insert_item (split c3bP1e zeroPage (searchPos c3bP1e (c3bK 6))).1
    (searchPos c3bP1e (c3bK 6)
      - (split c3bP1e zeroPage (searchPos c3bP1e (c3bK 6))).2.2 - 1) (c3bK 6) c3bV).1
def c3bP3a : PageBytes :=
  (insert_item (insert_item (set_n_items zeroPage 0) 0
    (get_last_key (split c3bP1e zeroPage (searchPos c3bP1e (c3bK 6))).2.1)
    (u32Bytes 2)).1 1 [] (u32Bytes 1)).1
def c3bSt6 : TreeSt :=
  { meta := { free := 0, size := 4, root := 3, height := 2 },
    meta_updated := true,
    pages := fun i => if i = 3 then c3bP3a else if i = 1 then c3bP1f
      else if i = 2 then c3bP2 else c3bSt5.pages i }

theorem c3bstep6 : do_upsert c3bSt5 (c3bK 6) c3bV = some c3bSt6 := by
  refine Eq.trans (do_upsert_leaf_split_grow c3bSt5 (c3bK 6) c3bV
    (by simp [c3bK, c3bV, MAX_KEY_LEN, MAX_VALUE_LEN, PAGE_SIZE]) (by decide)
    rfl rfl (by decide) (by decide) (by decide) (by decide)
    (by decide) (by decide)) (congrArg some ?_)
  refine treeSt_mk_eq rfl rfl (fun i => ?_)
  rw [show c3bSt5.pages c3bSt5.meta.root = c3bP1e from rfl,
      show c3bSt5.meta.root = 1 from rfl,
      show c3bSt5.meta.size = 2 from rfl,
      show (insert_item (insert_item (set_n_items zeroPage 0) 0
        (get_last_key (split c3bP1e zeroPage (searchPos c3bP1e (c3bK 6))).2.1)
        (u32Bytes 2)).1 1 [] (u32Bytes 1)).1 = c3bP3a from rfl,
      show (insert_item (split c3bP1e zeroPage (searchPos c3bP1e (c3bK 6))).1
        (searchPos c3bP1e (c3bK 6)
          - (split c3bP1e zeroPage (searchPos c3bP1e (c3bK 6))).2.2 - 1) (c3bK 6) c3bV).1
        = c3bP1f from rfl,
      show (split c3bP1e zeroPage (searchPos c3bP1e (c3bK 6))).2.1 = c3bP2 from rfl]

def c3bP1g : PageBytes := (insert_item c3bP1f (searchPos c3bP1f (c3bK 7)) (c3bK 7) c3bV).1
def c3bSt7 : TreeSt :=
  { meta := { free := 0, size := 4, root := 3, height := 2 },
    meta_updated := true,
    pages := fun i => if i = 1 then c3bP1g else c3bSt6.pages i }

def c3bP1h : PageBytes := (insert_item c3bP1g (searchPos c3bP1g (c3bK 8)) (c3bK 8) c3bV).1
def c3bSt8 : TreeSt :=
  { meta := { free := 0, size := 4, root := 3, height := 2 },
    meta_updated := true,
    pages := fun i => if i = 1 then c3bP1h else c3bSt7.pages i }

def c3bP1i : PageBytes := (insert_item c3bP1h (searchPos c3bP1h (c3bK 9)) (c3bK 9) c3bV).1
def c3bSt9 : TreeSt :=
  { meta := { free := 0, size := 4, root := 3, height := 2 },
    meta_updated := true,
    pages := fun i => if i = 1 then c3bP1i else c3bSt8.pages i }

def c3bP1j : PageBytes := (insert_item c3bP1i (searchPos c3bP1i (c3bK 10)) (c3bK 10) c3bV).1
def c3bSt10 : TreeSt :=
  { meta := { free := 0, size := 4, root := 3, height := 2 },
    meta_updated := true,
    pages := fun i => if i = 1 then c3bP1j else c3bSt9.pages i }

theorem c3bstep7 : do_upsert c3bSt6 (c3bK 7) c3bV = some c3bSt7 := by
  refine Eq.trans (do_upsert_internal c3bSt6 (c3bK 7) c3bV 1
    (by simp [c3bK, c3bV, MAX_KEY_LEN, MAX_VALUE_LEN, PAGE_SIZE]) (by decide)
    rfl (by decide) (by decide) (by decide)) (congrArg some ?_)
  refine treeSt_mk_eq rfl rfl (fun i => ?_)
  rw [show c3bSt6.pages 1 = c3bP1f from rfl,
      show (insert_item c3bP1f (searchPos c3bP1f (c3bK 7)) (c3bK 7) c3bV).1 = c3bP1g from rfl]

theorem c3bstep8 : do_upsert c3bSt7 (c3bK 8) c3bV = some c3bSt8 := by
  refine Eq.trans (do_upsert_internal c3bSt7 (c3bK 8) c3bV 1
    (by simp [c3bK, c3bV, MAX_KEY_LEN, MAX_VALUE_LEN, PAGE_SIZE]) (by decide)
    rfl (by decide) (by decide) (by decide)) (congrArg some ?_)
  refine treeSt_mk_eq rfl rfl (fun i => ?_)
  rw [show c3bSt7.pages 1 = c3bP1g from rfl,
      show (insert_item c3bP1g (searchPos c3bP1g (c3bK 8)) (c3bK 8) c3bV).1 = c3bP1h from rfl]

theorem c3bstep9 : do_upsert c3bSt8 (c3bK 9) c3bV = some c3bSt9 := by
  refine Eq.trans (do_upsert_internal c3bSt8 (c3bK 9) c3bV 1
    (by simp [c3bK, c3bV, MAX_KEY_LEN, MAX_VALUE_LEN, PAGE_SIZE]) (by decide)
    rfl (by decide) (by decide) (by decide)) (congrArg some ?_)
  refine treeSt_mk_eq rfl rfl (fun i => ?_)
  rw [show c3bSt8.pages 1 = c3bP1h from rfl,
      show (insert_item c3bP1h (searchPos c3bP1h (c3bK 9)) (c3bK 9) c3bV).1 = c3bP1i from rfl]

theorem c3bstep10 : do_upsert c3bSt9 (c3bK 10) c3bV = some c3bSt10 := by
  refine Eq.trans (do_upsert_internal c3bSt9 (c3bK 10) c3bV 1
    (by simp [c3bK, c3bV, MAX_KEY_LEN, MAX_VALUE_LEN, PAGE_SIZE]) (by decide)
    rfl (by decide) (by decide) (by decide)) (congrArg some ?_)
  refine treeSt_mk_eq rfl rfl (fun i => ?_)
  rw [show c3bSt9.pages 1 = c3bP1i from rfl,
      show (insert_item c3bP1i (searchPos c3bP1i (c3bK 10)) (c3bK 10) c3bV).1 = c3bP1j from rfl]

def c3bP4 : PageBytes := (split c3bP1j zeroPage (searchPos c3bP1j (c3bK 11))).2.1
def c3bP1k : PageBytes :=
  (insert_item (split c3bP1j zeroPage (searchPos c3bP1j (c3bK 11))).1
    (searchPos c3bP1j (c3bK 11)
      - (split c3bP1j zeroPage (searchPos c3bP1j (c3bK 11))).2.2 - 1) (c3bK 11) c3bV).1
def c3bP3b : PageBytes :=
  (insert_item c3bP3a (searchPos c3bP3a (c3bK 11))
    (get_last_key (split c3bP1j zeroPage (searchPos c3bP1j (c3bK 11))).2.1)
    (u32Bytes 4)).1
def c3bSt11 : TreeSt :=
  { meta := { free := 0, size := 5, root := 3, height := 2 },
    meta_updated := true,
    pages := fun i => if i = 3 then c3bP3b else if i = 1 then c3bP1k
      else if i = 4 then c3bP4 else c3bSt10.pages i }

theorem c3bstep11 : do_upsert c3bSt10 (c3bK 11) c3bV = some c3bSt11 := by
  refine Eq.trans (do_upsert_internal_split c3bSt10 (c3bK 11) c3bV 1
    (by simp [c3bK, c3bV, MAX_KEY_LEN, MAX_VALUE_LEN, PAGE_SIZE]) (by decide)
    rfl rfl (by decide) (by decide) (by decide) (by decide)
    (by decide) (by decide) (by decide) (by decide) (by decide)) (congrArg some ?_)
  refine treeSt_mk_eq rfl rfl (fun i => ?_)
  rw [show c3bSt10.pages c3bSt10.meta.root = c3bP3a from rfl,
      show c3bSt10.pages 1 = c3bP1j from rfl,
      show c3bSt10.meta.root = 3 from rfl,
      show c3bSt10.meta.size = 4 from rfl,
      show (insert_item c3bP3a (searchPos c3bP3a (c3bK 11))
        (get_last_key (split c3bP1j zeroPage (searchPos c3bP1j (c3bK 11))).2.1)
        (u32Bytes 4)).1 = c3bP3b from rfl,
      show (insert_item (split c3bP1j zeroPage (searchPos c3bP1j (c3bK 11))).1
        (searchPos c3bP1j (c3bK 11)
          - (split c3bP1j zeroPage (searchPos c3bP1j (c3bK 11))).2.2 - 1) (c3bK 11) c3bV).1
        = c3bP1k from rfl,
      show (split c3bP1j zeroPage (searchPos c3bP1j (c3bK 11))).2.1 = c3bP4 from rfl]

def c3bP1l : PageBytes := (insert_item c3bP1k (searchPos c3bP1k (c3bK 12)) (c3bK 12) c3bV).1
def c3bSt12 : TreeSt :=
  { meta := { free := 0, size := 5, root := 3, height := 2 },
    meta_updated := true,
    pages := fun i => if i = 1 then c3bP1l else c3bSt11.pages i }

def c3bP1m : PageBytes := (insert_item c3bP1l (searchPos c3bP1l (c3bK 13)) (c3bK 13) c3bV).1
def c3bSt13 : TreeSt :=
  { meta := { free := 0, size := 5, root := 3, height := 2 },
    meta_updated := true,
    pages := fun i => if i = 1 then c3bP1m else c3bSt12.pages i }

def c3bP1n : PageBytes := (insert_item c3bP1m (searchPos c3bP1m (c3bK 14)) (c3bK 14) c3bV).1
def c3bSt14 : TreeSt :=
  { meta := { free := 0, size := 5, root := 3, height := 2 },
    meta_updated := true,
    pages := fun i => if i = 1 then c3bP1n else c3bSt13.pages i }

def c3bP1o : PageBytes := (insert_item c3bP1n (searchPos c3bP1n (c3bK 15)) (c3bK 15) c3bV).1
def c3bSt15 : TreeSt :=
  { meta := { free := 0, size := 5, root := 3, height := 2 },
    meta_updated := true,
    pages := fun i => if i = 1 then c3bP1o else c3bSt14.pages i }

theorem c3bstep12 : do_upsert c3bSt11 (c3bK 12) c3bV = some c3bSt12 := by
  refine Eq.trans (do_upsert_internal c3bSt11 (c3bK 12) c3bV 1
    (by simp [c3bK, c3bV, MAX_KEY_LEN, MAX_VALUE_LEN, PAGE_SIZE]) (by decide)
    rfl (by decide) (by decide) (by decide)) (congrArg some ?_)
  refine treeSt_mk_eq rfl rfl (fun i => ?_)
  rw [show c3bSt11.pages 1 = c3bP1k from rfl,
      show (insert_item c3bP1k (searchPos c3bP1k (c3bK 12)) (c3bK 12) c3bV).1 = c3bP1l from rfl]

theorem c3bstep13 : do_upsert c3bSt12 (c3bK 13) c3bV = some c3bSt13 := by
  refine Eq.trans (do_upsert_internal c3bSt12 (c3bK 13) c3bV 1
    (by simp [c3bK, c3bV, MAX_KEY_LEN, MAX_VALUE_LEN, PAGE_SIZE]) (by decide)
    rfl (by decide) (by decide) (by decide)) (congrArg some ?_)
  refine treeSt_mk_eq rfl rfl (fun i => ?_)
  rw [show c3bSt12.pages 1 = c3bP1l from rfl,
      show (insert_item c3bP1l (searchPos c3bP1l (c3bK 13)) (c3bK 13) c3bV).1 = c3bP1m from rfl]

theorem c3bstep14 : do_upsert c3bSt13 (c3bK 14) c3bV = some c3bSt14 := by
  refine Eq.trans (do_upsert_internal c3bSt13 (c3bK 14) c3bV 1
    (by simp [c3bK, c3bV, MAX_KEY_LEN, MAX_VALUE_LEN, PAGE_SIZE]) (by decide)
    rfl (by decide) (by decide) (by decide)) (congrArg some ?_)
  refine treeSt_mk_eq rfl rfl (fun i => ?_)
  rw [show c3bSt13.pages 1 = c3bP1m from rfl,
      show (insert_item c3bP1m (searchPos c3bP1m (c3bK 14)) (c3bK 14) c3bV).1 = c3bP1n from rfl]

theorem c3bstep15 : do_upsert c3bSt14 (c3bK 15) c3bV = some c3bSt15 := by
  refine Eq.trans (do_upsert_internal c3bSt14 (c3bK 15) c3bV 1
    (by simp [c3bK, c3bV, MAX_KEY_LEN, MAX_VALUE_LEN, PAGE_SIZE]) (by decide)
    rfl (by decide) (by decide) (by decide)) (congrArg some ?_)
  refine treeSt_mk_eq rfl rfl (fun i => ?_)
  rw [show c3bSt14.pages 1 = c3bP1n from rfl,
      show (insert_item c3bP1n (searchPos c3bP1n (c3bK 15)) (c3bK 15) c3bV).1 = c3bP1o from rfl]

def c3bP5 : PageBytes := (split c3bP1o zeroPage (searchPos c3bP1o (c3bK 16))).2.1
def c3bP1p : PageBytes :=
  (insert_item (split c3bP1o zeroPage (searchPos c3bP1o (c3bK 16))).1
    (searchPos c3bP1o (c3bK 16)
      - (split c3bP1o zeroPage (searchPos c3bP1o (c3bK 16))).2.2 - 1) (c3bK 16) c3bV).1
def c3bP3c : PageBytes :=
  (insert_item c3bP3b (searchPos c3bP3b (c3bK 16))
    (get_last_key (split c3bP1o zeroPage (searchPos c3bP1o (c3bK 16))).2.1)
    (u32Bytes 5)).1
def c3bSt16 : TreeSt :=
  { meta := { free := 0, size := 6, root := 3, height := 2 },
    meta_updated := true,
    pages := fun i => if i = 3 then c3bP3c else if i = 1 then c3bP1p
      else if i = 5 then c3bP5 else c3bSt15.pages i }

theorem c3bstep16 : do_upsert c3bSt15 (c3bK 16) c3bV = some c3bSt16 := by
  refine Eq.trans (do_upsert_internal_split c3bSt15 (c3bK 16) c3bV 1
    (by simp [c3bK, c3bV, MAX_KEY_LEN, MAX_VALUE_LEN, PAGE_SIZE]) (by decide)
    rfl rfl (by decide) (by decide) (by decide) (by decide)
    (by decide) (by decide) (by decide) (by decide) (by decide)) (congrArg some ?_)
  refine treeSt_mk_eq rfl rfl (fun i => ?_)
  rw [show c3bSt15.pages c3bSt15.meta.root = c3bP3b from rfl,
      show c3bSt15.pages 1 = c3bP1o from rfl,
      show c3bSt15.meta.root = 3 from rfl,
      show c3bSt15.meta.size = 5 from rfl,
      show (insert_item c3bP3b (searchPos c3bP3b (c3bK 16))
        (get_last_key (split c3bP1o zeroPage (searchPos c3bP1o (c3bK 16))).2.1)
        (u32Bytes 5)).1 = c3bP3c from rfl,
      show (insert_item (split c3bP1o zeroPage (searchPos c3bP1o (c3bK 16))).1
        (searchPos c3bP1o (c3bK 16)
          - (split c3bP1o zeroPage (searchPos c3bP1o (c3bK 16))).2.2 - 1) (c3bK 16) c3bV).1
        = c3bP1p from rfl,
      show (split c3bP1o zeroPage (searchPos c3bP1o (c3bK 16))).2.1 = c3bP5 from rfl]

def c3bP3d : PageBytes := remove_key c3bP3c (searchPos c3bP3c (c3bK 16)) false
def c3bP1q : PageBytes :=
  set_u32 (remove_key c3bP1p (searchPos c3bP1p (c3bK 16)) true) 0 0
def c3bSt17 : TreeSt :=
  { meta := { free := 1, size := 6, root := 3, height := 2 },
    meta_updated := true,
    pages := fun i => if i = 3 then c3bP3d else if i = 1 then c3bP1q
      else c3bSt16.pages i }

theorem c3bstep17 : do_remove c3bSt16 (c3bK 16) = some c3bSt17 := by
  refine Eq.trans (do_remove_underflow_promote c3bSt16 (c3bK 16) 1
    (by decide) rfl (by decide) (by decide) (by decide) (by decide) (by decide))
    (congrArg some ?_)
  refine treeSt_mk_eq rfl rfl (fun i => ?_)
  rw [show c3bSt16.pages c3bSt16.meta.root = c3bP3c from rfl,
      show c3bSt16.pages 1 = c3bP1p from rfl,
      show c3bSt16.meta.root = 3 from rfl,
      show c3bSt16.meta.free = 0 from rfl,
      show remove_key c3bP3c (searchPos c3bP3c (c3bK 16)) false = c3bP3d from rfl,
      show set_u32 (remove_key c3bP1p (searchPos c3bP1p (c3bK 16)) true) 0 0
        = c3bP1q from rfl]

/-- Store states reachable from a fresh store by successful upserts and
removes (Transaction.put / Transaction.remove on the tree view). -/
inductive StoreReach : TreeSt → Prop
  | init : StoreReach freshStore
  | put (s s2 : TreeSt) (key value : List Nat) :
      StoreReach s → do_upsert s key value = some s2 → StoreReach s2
  | del (s s2 : TreeSt) (key : List Nat) :
      StoreReach s → do_remove s key = some s2 → StoreReach s2

theorem c3b_reach : StoreReach c3bSt17 :=
  StoreReach.del _ _ _ (StoreReach.put _ _ _ _ (StoreReach.put _ _ _ _
    (StoreReach.put _ _ _ _ (StoreReach.put _ _ _ _ (StoreReach.put _ _ _ _
    (StoreReach.put _ _ _ _ (StoreReach.put _ _ _ _ (StoreReach.put _ _ _ _
    (StoreReach.put _ _ _ _ (StoreReach.put _ _ _ _ (StoreReach.put _ _ _ _
    (StoreReach.put _ _ _ _ (StoreReach.put _ _ _ _ (StoreReach.put _ _ _ _
    (StoreReach.put _ _ _ _ (StoreReach.put _ _ _ _ StoreReach.init
    c3bstep1) c3bstep2) c3bstep3) c3bstep4) c3bstep5) c3bstep6) c3bstep7)
    c3bstep8) c3bstep9) c3bstep10) c3bstep11) c3bstep12) c3bstep13)
    c3bstep14) c3bstep15) c3bstep16) c3bstep17

/-- C3: refuted as stated and in any strict-order amendment: in the store
state reached by the sixteen upserts and one remove of the construction
above, the root internal page (page 3, height 2) holds three slots whose
first two keys are EQUAL ([1,1,1,1,1] twice, lexCompare eq) — keys are
neither strictly descending (the spec's claim) nor strictly ascending (the
order the code elsewhere maintains and traverse checks): the remove_key
promote bug destroys the ordering invariant on reachable pages. -/
theorem C3_no_strict_order_in_reachable_page :
    StoreReach c3bSt17 ∧
    c3bSt17.meta.root = 3 ∧
    c3bSt17.meta.height = 2 ∧
    get_n_items (c3bSt17.pages 3) = 3 ∧
    get_key (c3bSt17.pages 3) 0 = [1, 1, 1, 1, 1] ∧
    get_key (c3bSt17.pages 3) 1 = [1, 1, 1, 1, 1] ∧
    lexCompare (get_key (c3bSt17.pages 3) 0) (get_key (c3bSt17.pages 3) 1)
      = Ordering.eq :=
  ⟨c3b_reach, rfl, rfl, by decide, by decide, by decide, by decide⟩

/-! ### WAL recovery (store.rs `recovery`, lines 415-482)

Model: a merged view of the file and the buffer pool.  `file : Nat → PageBytes`
is the data file's pages by page id; `pages` is the cache of pages read so far
in the current (uncommitted) batch (get_page with WriteOnly intent fills a
fresh pool page, modelled as writeBytes zeroPage 0 bytes); `dirty` is the
dirty list (newest first; get_page re-marks a page by moving it to the front,
modelled with erase); `pool0` is pool slot 0 (the metadata page).  The CRC
accumulator crc32c_append is abstracted as a parameter
`crcApp : Nat → List Nat → Nat`.  `logRead` models a read from the WAL that
fails (Rust: read returns fewer bytes than asked) when the log is too short.
The `assert!(self.dirty != 0)` in flush_buffers when save_meta holds is a
panic, modelled as `none`.  Fuel decreases once per record; each record
consumes at least 4 bytes of log, so `log.length + 4` steps suffice. -/

def logRead (log : List Nat) (pos len : Nat) : Option (List Nat) :=
  if pos + len ≤ log.length then some ((log.drop pos).take len) else none

def be32 (bs : List Nat) : Nat :=
  ((bs.getD 0 0 * 256 + bs.getD 1 0) * 256 + bs.getD 2 0) * 256 + bs.getD 3 0

def recoveryLoop (crcApp : Nat → List Nat → Nat) (log : List Nat) :
    Nat → (Nat → PageBytes) → (Nat → PageBytes) → List Nat → PageBytes →
    Nat → Nat → Option (Nat → PageBytes)
  | 0, _, _, _, _, _, _ => none
  | fuel + 1, file, pages, dirty, pool0, pos, crc =>
    match logRead log pos 4 with
    | none => some file
    | some hdr =>
      let pid := be32 hdr
      let crc1 := crcApp crc hdr
      if pid ≠ 0 then
        match logRead log (pos + 4) PAGE_SIZE with
        | none => some file
        | some bytes =>
          recoveryLoop crcApp log fuel file
            (fun q => if q = pid then writeBytes zeroPage 0 bytes else pages q)
            (pid :: dirty.erase pid) pool0 (pos + 4 + PAGE_SIZE) (crcApp crc1 bytes)
      else
        match logRead log (pos + 4) METADATA_SIZE with
        | none => some file
        | some metaBytes =>
          let crc2 := crcApp crc1 metaBytes
          match logRead log (pos + 4 + METADATA_SIZE) 4 with
          | none => some file
          | some tr =>
            if be32 tr ≠ crc2 then some file
            else if dirty = [] then none
            else
              recoveryLoop crcApp log fuel
                (fun q => if q = 0 then writeBytes pool0 0 metaBytes
                  else if q ∈ dirty then pages q else file q)
                pages [] (writeBytes pool0 0 metaBytes)
                (pos + 4 + METADATA_SIZE + 4) 0

/-- Full recovery: run the loop from wal position 0 with an empty cache and
dirty list, then (as in the code after the loop) rollback discards the
uncommitted cache, wal_pos is set to 0, the log is truncated, and the
metadata is re-read (unpacked) from page 0 of the resulting data file. -/
def recovery (crcApp : Nat → List Nat → Nat) (log : List Nat)
    (file : Nat → PageBytes) :
    Option ((Nat → PageBytes) × Metadata × Nat × List Nat) :=
  (recoveryLoop crcApp log (log.length + 4) file (fun _ => zeroPage) [] zeroPage
    0 0).map (fun f => (f, Metadata.unpack (f 0), 0, []))

/-- One batch of the WAL, parsed from `pos`: returns the page records, the
meta bytes, the trailer CRC as stored, the CRC accumulated over the whole
batch, the position after the batch, and the remaining fuel; `none` if the
batch is incomplete (short read). -/
def parseBatch (crcApp : Nat → List Nat → Nat) (log : List Nat) :
    Nat → Nat → Nat →
    Option (List (Nat × List Nat) × List Nat × Nat × Nat × Nat × Nat)
  | 0, _, _ => none
  | fuel + 1, pos, crc =>
    match logRead log pos 4 with
    | none => none
    | some hdr =>
      let pid := be32 hdr
      let crc1 := crcApp crc hdr
      if pid ≠ 0 then
        match logRead log (pos + 4) PAGE_SIZE with
        | none => none
        | some bytes =>
          (parseBatch crcApp log fuel (pos + 4 + PAGE_SIZE) (crcApp crc1 bytes)).map
            (fun pb => ((pid, bytes) :: pb.1, pb.2))
      else
        match logRead log (pos + 4) METADATA_SIZE with
        | none => none
        | some metaBytes =>
          let crc2 := crcApp crc1 metaBytes
          match logRead log (pos + 4 + METADATA_SIZE) 4 with
          | none => none
          | some tr =>
            some ([], metaBytes, be32 tr, crc2, pos + 4 + METADATA_SIZE + 4, fuel)

def recPages (pages : Nat → PageBytes) (recs : List (Nat × List Nat)) :
    Nat → PageBytes :=
  recs.foldl (fun pg r => fun q => if q = r.1 then writeBytes zeroPage 0 r.2 else pg q)
    pages

def recDirty (dirty : List Nat) (recs : List (Nat × List Nat)) : List Nat :=
  recs.foldl (fun d r => r.1 :: d.erase r.1) dirty

/-- Characterisation of the recovery loop batch by batch: an incomplete
batch (short read anywhere inside it) stops the loop with the file as is;
a complete batch is applied to the data file if and only if its trailer
CRC equals the CRC accumulated over the batch, after which the loop
continues past the batch with the dirty list cleared and crc reset to 0;
a complete batch with a mismatching trailer stops the loop with the file
as is. -/
theorem recoveryLoop_batches (crcApp : Nat → List Nat → Nat) (log : List Nat) :
    ∀ (fuel : Nat) (file pages : Nat → PageBytes) (dirty : List Nat)
      (pool0 : PageBytes) (pos crc : Nat),
      1 ≤ fuel → log.length + 4 ≤ pos + 4 * fuel →
      recoveryLoop crcApp log fuel file pages dirty pool0 pos crc =
        match parseBatch crcApp log fuel pos crc with
        | none => some file
        | some pb =>
          if pb.2.2.1 = pb.2.2.2.1 then
            if recDirty dirty pb.1 = [] then none
            else
              recoveryLoop crcApp log pb.2.2.2.2.2
                (fun q => if q = 0 then writeBytes pool0 0 pb.2.1
                  else if q ∈ recDirty dirty pb.1 then recPages pages pb.1 q
                  else file q)
                (recPages pages pb.1) [] (writeBytes pool0 0 pb.2.1)
                pb.2.2.2.2.1 0
          else some file := by
  intro fuel
  induction fuel with
  | zero => intro _ _ _ _ _ _ h1 _; omega
  | succ f ih =>
    intro file pages dirty pool0 pos crc h1 h2
    simp only [recoveryLoop, parseBatch]
    cases hread : logRead log pos 4 with
    | none => simp
    | some hdr =>
      simp only []
      by_cases hpid : be32 hdr ≠ 0
      · rw [if_pos hpid, if_pos hpid]
        cases hread2 : logRead log (pos + 4) PAGE_SIZE with
        | none => simp
        | some bytes =>
          simp only []
          have hlen2 : pos + 4 + PAGE_SIZE ≤ log.length := by
            by_contra hc
            simp [logRead, hc] at hread2
          have hps : PAGE_SIZE = 8192 := rfl
          have hf1 : 1 ≤ f := by omega
          have hf2 : log.length + 4 ≤ pos + 4 + PAGE_SIZE + 4 * f := by omega
          rw [ih file (fun q => if q = be32 hdr then writeBytes zeroPage 0 bytes else pages q)
            (be32 hdr :: dirty.erase (be32 hdr)) pool0 (pos + 4 + PAGE_SIZE)
            (crcApp (crcApp crc hdr) bytes) hf1 hf2]
          cases hpb : parseBatch crcApp log f (pos + 4 + PAGE_SIZE)
              (crcApp (crcApp crc hdr) bytes) with
          | none => simp
          | some pb =>
            simp only [Option.map_some, recDirty, recPages, List.foldl_cons]
            rfl
      · rw [if_neg hpid, if_neg hpid]
        cases hread3 : logRead log (pos + 4) METADATA_SIZE with
        | none => simp
        | some metaBytes =>
          simp only []
          cases hread4 : logRead log (pos + 4 + METADATA_SIZE) 4 with
          | none => simp
          | some tr =>
            simp only []
            simp only [recDirty, recPages, List.foldl_nil]
            by_cases htr : be32 tr ≠ crcApp (crcApp crc hdr) metaBytes
            · rw [if_pos htr, if_neg htr]
            · have heq : be32 tr = crcApp (crcApp crc hdr) metaBytes := not_not.mp htr
              rw [if_neg htr, if_pos heq]

/-- C2: WAL recovery, starting at position 0, applies a transaction batch's
pages and meta to the data file if and only if the batch's trailer CRC
equals the CRC (crc32c, abstracted as crcApp) accumulated over that whole
batch; on a short read or a CRC mismatch it stops without reporting an
error (result `some file`, the file untouched by the incomplete batch);
and recovery finishes with wal_pos = 0, the WAL truncated to length 0, and
the metadata re-read (unpacked) from page 0 of the resulting data file. -/
theorem C2_recovery_spec (crcApp : Nat → List Nat → Nat) (log : List Nat) :
    (∀ (fuel : Nat) (file pages : Nat → PageBytes) (dirty : List Nat)
      (pool0 : PageBytes) (pos crc : Nat),
      1 ≤ fuel → log.length + 4 ≤ pos + 4 * fuel →
      recoveryLoop crcApp log fuel file pages dirty pool0 pos crc =
        match parseBatch crcApp log fuel pos crc with
        | none => some file
        | some pb =>
          if pb.2.2.1 = pb.2.2.2.1 then
            if recDirty dirty pb.1 = [] then none
            else
              recoveryLoop crcApp log pb.2.2.2.2.2
                (fun q => if q = 0 then writeBytes pool0 0 pb.2.1
                  else if q ∈ recDirty dirty pb.1 then recPages pages pb.1 q
                  else file q)
                (recPages pages pb.1) [] (writeBytes pool0 0 pb.2.1)
                pb.2.2.2.2.1 0
          else some file) ∧
    (∀ (file f : Nat → PageBytes) (m : Metadata) (w : Nat) (l : List Nat),
      recovery crcApp log file = some (f, m, w, l) →
      w = 0 ∧ l = [] ∧ m = Metadata.unpack (f 0)) := by
  refine ⟨recoveryLoop_batches crcApp log, ?_⟩
  intro file f m w l h
  simp only [recovery] at h
  cases hx : recoveryLoop crcApp log (log.length + 4) file (fun _ => zeroPage) []
      zeroPage 0 0 with
  | none => rw [hx] at h; cases h
  | some f0 =>
    rw [hx] at h
    simp only [Option.map_some', Option.some.injEq, Prod.mk.injEq] at h
    obtain ⟨hf, hm, hw, hl⟩ := h
    refine ⟨hw.symm, hl.symm, ?_⟩
    rw [← hm, ← hf]

theorem C2_recovery_spec_witness :
    recoveryLoop (fun c bs => c + bs.sum) ([0, 0, 0, 5] ++ List.replicate 100 7)
      30 (fun _ => zeroPage) (fun _ => zeroPage) [] zeroPage 0 0
      = some (fun _ => zeroPage) ∧
    (0 = 0 ∧ ([] : List Nat) = [] ∧
      Metadata.unpack ((fun _ => zeroPage) 0) =
        Metadata.unpack ((fun _ => zeroPage) 0)) := by
  constructor
  · have h := (C2_recovery_spec (fun c bs => c + bs.sum)
      ([0, 0, 0, 5] ++ List.replicate 100 7)).1 30 (fun _ => zeroPage)
      (fun _ => zeroPage) [] zeroPage 0 0 (by decide) (by decide)
    rw [h]
    rfl
  · have h2 := (C2_recovery_spec (fun c bs => c + bs.sum)
      ([0, 0, 0, 5] ++ List.replicate 100 7)).2 (fun _ => zeroPage)
      (fun _ => zeroPage) (Metadata.unpack ((fun _ => zeroPage) 0)) 0 [] (by rfl)
    exact ⟨rfl, rfl, rfl⟩
